import Mathlib

/-!
Shallow embedding of the fastapi-pulse metrics and payload-store core
(`src/fastapi_pulse/metrics.py`, `src/fastapi_pulse/payload_store.py`).

Python dicts are embedded as insertion-ordered association lists with
unique keys; `float` times and latencies are embedded as `ℚ`; fallible
code paths (a `min` over an empty dict raising `ValueError`) are embedded
with `Option`.
-/

namespace FastapiPulse

/-! ### Association lists (Python `dict` / `defaultdict` model) -/

/-- Lookup of a key in an insertion-ordered association list (`d[key]` /
`d.get(key)`). -/
def alookup {κ α : Type} [DecidableEq κ] : List (κ × α) → κ → Option α
  | [], _ => none
  | (k, v) :: rest, key => if k = key then some v else alookup rest key

/-- Lookup with a default value (the `defaultdict` read). -/
def alookupD {κ α : Type} [DecidableEq κ] (l : List (κ × α)) (key : κ) (d : α) : α :=
  (alookup l key).getD d

/-- Write `d[key] = v`: update in place when the key is present, append
otherwise (Python dicts preserve insertion order). -/
def aupd {κ α : Type} [DecidableEq κ] : List (κ × α) → κ → α → List (κ × α)
  | [], key, v => [(key, v)]
  | (k, w) :: rest, key, v =>
      if k = key then (key, v) :: rest else (k, w) :: aupd rest key v

/-- Remove a key (`d.pop(key, None)`). Removes the first binding; under
the no-duplicate-keys invariant this is the only binding. -/
def aerase {κ α : Type} [DecidableEq κ] : List (κ × α) → κ → List (κ × α)
  | [], _ => []
  | (k, w) :: rest, key =>
      if k = key then rest else (k, w) :: aerase rest key

/-- The keys of an association list, in insertion order. -/
def akeys {κ α : Type} (l : List (κ × α)) : List κ := l.map Prod.fst

/-- Sum of all values of a `String → ℕ` counter dict. -/
def sumVals {κ : Type} (l : List (κ × ℕ)) : ℕ := (l.map Prod.snd).sum

/-- Python `min(d.items(), key=lambda x: x[1])`: first item attaining the
minimal value, `none` on an empty dict (where Python raises `ValueError`). -/
def firstMinBySnd {κ : Type} : List (κ × ℚ) → Option (κ × ℚ)
  | [] => none
  | x :: xs => some (xs.foldl (fun acc y => if y.2 < acc.2 then y else acc) x)

section AListLemmas

variable {κ α : Type} [DecidableEq κ]

theorem alookup_aupd_self (l : List (κ × α)) (k : κ) (v : α) :
    alookup (aupd l k v) k = some v := by
  induction l with
  | nil => simp [aupd, alookup]
  | cons h t ih =>
    obtain ⟨k', w⟩ := h
    by_cases hk : k' = k <;> simp [aupd, alookup, hk, ih]

theorem alookup_aupd_ne (l : List (κ × α)) (k j : κ) (v : α) (hne : j ≠ k) :
    alookup (aupd l k v) j = alookup l j := by
  have hkj : ¬ (k = j) := fun h => hne h.symm
  induction l with
  | nil => simp [aupd, alookup, hkj]
  | cons h t ih =>
    obtain ⟨k', w⟩ := h
    by_cases hk : k' = k
    · subst hk
      simp [aupd, alookup, hkj]
    · by_cases hj : k' = j <;> simp [aupd, alookup, hk, hj, hkj, hne, ih]

theorem alookup_aerase_ne (l : List (κ × α)) (k j : κ) (hne : j ≠ k) :
    alookup (aerase l k) j = alookup l j := by
  have hkj : ¬ (k = j) := fun h => hne h.symm
  induction l with
  | nil => simp [aerase]
  | cons h t ih =>
    obtain ⟨k', w⟩ := h
    by_cases hk : k' = k
    · subst hk
      simp [aerase, alookup, hkj]
    · by_cases hj : k' = j <;> simp [aerase, alookup, hk, hj, hkj, hne, ih]

theorem alookup_eq_none_of_not_mem_akeys (l : List (κ × α)) (k : κ)
    (h : ¬ k ∈ akeys l) : alookup l k = none := by
  induction l with
  | nil => simp [alookup]
  | cons hd t ih =>
    obtain ⟨k', w⟩ := hd
    simp only [akeys, List.map_cons, List.mem_cons] at h
    push_neg at h
    have hk : ¬ (k' = k) := fun hh => h.1 hh.symm
    simp [alookup, hk, ih (by simpa [akeys] using h.2)]

theorem mem_akeys_of_alookup (l : List (κ × α)) (k : κ) (v : α)
    (h : alookup l k = some v) : k ∈ akeys l := by
  induction l with
  | nil => simp [alookup] at h
  | cons hd t ih =>
    obtain ⟨k', w⟩ := hd
    by_cases hk : k' = k
    · simp [akeys, hk]
    · simp only [alookup, hk, if_false] at h
      simp only [akeys, List.map_cons, List.mem_cons]
      exact Or.inr (by simpa [akeys] using ih h)

theorem alookup_aerase_self (l : List (κ × α)) (k : κ)
    (hnd : (akeys l).Nodup) : alookup (aerase l k) k = none := by
  induction l with
  | nil => simp [aerase, alookup]
  | cons hd t ih =>
    obtain ⟨k', w⟩ := hd
    simp only [akeys, List.map_cons, List.nodup_cons] at hnd
    by_cases hk : k' = k
    · subst hk
      simp only [aerase, if_pos rfl]
      exact alookup_eq_none_of_not_mem_akeys _ _ hnd.1
    · simp [aerase, alookup, hk, ih hnd.2]

theorem akeys_aerase (l : List (κ × α)) (k : κ) :
    ∀ j, j ∈ akeys (aerase l k) → j ∈ akeys l := by
  induction l with
  | nil => simp [aerase]
  | cons hd t ih =>
    obtain ⟨k', w⟩ := hd
    intro j hj
    by_cases hk : k' = k
    · simp only [aerase, if_pos hk] at hj
      simp only [akeys, List.map_cons, List.mem_cons]
      exact Or.inr (by simpa [akeys] using hj)
    · simp only [aerase, if_neg hk, akeys, List.map_cons, List.mem_cons] at hj
      simp only [akeys, List.map_cons, List.mem_cons]
      rcases hj with hj | hj
      · exact Or.inl hj
      · exact Or.inr (by simpa [akeys] using ih j (by simpa [akeys] using hj))

theorem nodup_akeys_aerase (l : List (κ × α)) (k : κ)
    (hnd : (akeys l).Nodup) : (akeys (aerase l k)).Nodup := by
  induction l with
  | nil => simp [aerase, akeys]
  | cons hd t ih =>
    obtain ⟨k', w⟩ := hd
    simp only [akeys, List.map_cons, List.nodup_cons] at hnd
    by_cases hk : k' = k
    · simpa [aerase, hk, akeys] using hnd.2
    · simp only [aerase, if_neg hk, akeys, List.map_cons, List.nodup_cons]
      exact ⟨fun hmem => hnd.1 (akeys_aerase t k k' hmem), ih hnd.2⟩

theorem mem_akeys_aupd (l : List (κ × α)) (k j : κ) (v : α) :
    j ∈ akeys (aupd l k v) ↔ (j ∈ akeys l ∨ j = k) := by
  induction l with
  | nil => simp [aupd, akeys]
  | cons hd t ih =>
    obtain ⟨k', w⟩ := hd
    by_cases hk : k' = k
    · subst hk
      simp only [aupd, akeys, ite_true, if_pos, List.map_cons, List.mem_cons]
      simp only [akeys] at ih
      tauto
    · simp only [aupd, if_neg hk, akeys, List.map_cons, List.mem_cons]
      have ih' : j ∈ akeys (aupd t k v) ↔ (j ∈ akeys t ∨ j = k) := ih
      simp only [akeys] at ih'
      rw [ih']
      tauto

theorem akeys_aupd_of_mem (l : List (κ × α)) (k : κ) (v : α)
    (h : k ∈ akeys l) : akeys (aupd l k v) = akeys l := by
  induction l with
  | nil => simp [akeys] at h
  | cons hd t ih =>
    obtain ⟨k', w⟩ := hd
    by_cases hk : k' = k
    · subst hk
      simp [aupd, akeys]
    · simp only [akeys, List.map_cons, List.mem_cons] at h
      rcases h with h | h
      · exact absurd h.symm hk
      · have ih' : akeys (aupd t k v) = akeys t := ih (by simpa [akeys] using h)
        simp only [akeys] at ih'
        simp [aupd, hk, akeys, ih']

theorem akeys_aupd_of_not_mem (l : List (κ × α)) (k : κ) (v : α)
    (h : ¬ k ∈ akeys l) : akeys (aupd l k v) = akeys l ++ [k] := by
  induction l with
  | nil => simp [aupd, akeys]
  | cons hd t ih =>
    obtain ⟨k', w⟩ := hd
    simp only [akeys, List.map_cons, List.mem_cons] at h
    push_neg at h
    have hk : ¬ (k' = k) := fun hh => h.1 hh.symm
    have ih' : akeys (aupd t k v) = akeys t ++ [k] := ih (by simpa [akeys] using h.2)
    simp only [akeys] at ih'
    simp [aupd, hk, akeys, ih']

theorem nodup_akeys_aupd (l : List (κ × α)) (k : κ) (v : α)
    (hnd : (akeys l).Nodup) : (akeys (aupd l k v)).Nodup := by
  by_cases h : k ∈ akeys l
  · rwa [akeys_aupd_of_mem l k v h]
  · rw [akeys_aupd_of_not_mem l k v h]
    simp [List.nodup_append, hnd, h]

theorem length_aupd_of_mem (l : List (κ × α)) (k : κ) (v : α)
    (h : k ∈ akeys l) : (aupd l k v).length = l.length := by
  have := akeys_aupd_of_mem l k v h
  have h1 : (akeys (aupd l k v)).length = (akeys l).length := by rw [this]
  simpa [akeys] using h1

theorem sumVals_aupd_incr (l : List (κ × ℕ)) (k : κ) :
    sumVals (aupd l k (alookupD l k 0 + 1)) = sumVals l + 1 := by
  induction l with
  | nil => simp [aupd, sumVals, alookupD, alookup]
  | cons hd t ih =>
    obtain ⟨k', w⟩ := hd
    by_cases hk : k' = k
    · subst hk
      simp [aupd, sumVals, alookupD, alookup]
      omega
    · simp only [aupd, if_neg hk, sumVals, List.map_cons, List.sum_cons,
        alookupD, alookup, hk, if_false]
      have := ih
      simp only [sumVals, alookupD] at this
      omega

end AListLemmas

/-! ### `RollingWindowDigest` (`metrics.py`, lines 15–104)

The external `tdigest` sketch is modelled from the spec as the exact list
of points fed to it (`update` appends, `+` concatenates, `compress` is the
identity on the represented data); its `percentile` is modelled below as
rank interpolation over the sorted points. -/

/-- Container for digest data within a fixed time bucket
(`_DigestBucket`). `samples` models the bucket's `TDigest` state. -/
structure DigestBucket where
  start : ℚ
  samples : List ℚ
  count : ℕ
  total : ℚ
deriving DecidableEq

/-- Maintain TDigest statistics over a sliding time window
(`RollingWindowDigest`). `delta`/`K` only tune the sketch's compression,
which the exact-list sketch model ignores. -/
structure RollingWindowDigest where
  window_seconds : ℤ
  bucket_seconds : ℤ
  buckets : List DigestBucket
deriving DecidableEq

namespace RollingWindowDigest

/-- `__init__`: `self.bucket_seconds = max(1, bucket_seconds)`. -/
def init (windowSeconds bucketSeconds : ℤ) : RollingWindowDigest :=
  { window_seconds := windowSeconds
    bucket_seconds := max 1 bucketSeconds
    buckets := [] }

/-- The `while` loop of `_trim`: pop buckets from the front while
`bucket.start < cutoff`. -/
def trimGo (cutoff : ℚ) : List DigestBucket → List DigestBucket
  | [] => []
  | b :: rest => if b.start < cutoff then trimGo cutoff rest else b :: rest

/-- `_trim(now)`: drop expired buckets, `cutoff = now - window_seconds`. -/
def trim (now : ℚ) (d : RollingWindowDigest) : RollingWindowDigest :=
  { d with buckets := trimGo (now - (d.window_seconds : ℚ)) d.buckets }

/-- `math.floor(now / bucket_seconds) * bucket_seconds`. -/
def alignedStart (bucketSeconds : ℤ) (now : ℚ) : ℚ :=
  ((⌊now / (bucketSeconds : ℚ)⌋ * bucketSeconds : ℤ) : ℚ)

/-- Feed one value into a bucket: `digest.update(value)`, `count += 1`,
`total += value`. -/
def pushBucket (b : DigestBucket) (v : ℚ) : DigestBucket :=
  { b with samples := b.samples ++ [v], count := b.count + 1, total := b.total + v }

/-- Find-or-create step of `add`: reuse the most recent bucket when its
start equals the aligned start, else append a fresh bucket. Only the last
bucket is examined, as in the source. -/
def addToBuckets (s v : ℚ) : List DigestBucket → List DigestBucket
  | [] => [⟨s, [v], 1, v⟩]
  | [b] => if b.start = s then [pushBucket b v] else [b, ⟨s, [v], 1, v⟩]
  | b :: rest => b :: addToBuckets s v rest

/-- `add(value, timestamp)`. The Python default `timestamp=None` reads the
clock; the clock value is the explicit `timestamp` argument here. -/
def add (d : RollingWindowDigest) (value timestamp : ℚ) : RollingWindowDigest :=
  let d1 := d.trim timestamp
  { d1 with buckets := addToBuckets (alignedStart d.bucket_seconds timestamp) value d1.buckets }

/-- `count()`. `_refresh` reads the clock; the clock value is the explicit
`now` argument. -/
def countAt (d : RollingWindowDigest) (now : ℚ) : ℕ :=
  (((d.trim now).buckets).map DigestBucket.count).sum

/-- `total()`. -/
def totalAt (d : RollingWindowDigest) (now : ℚ) : ℚ :=
  (((d.trim now).buckets).map DigestBucket.total).sum

/-- `mean()`. -/
def meanAt (d : RollingWindowDigest) (now : ℚ) : ℚ :=
  if (((d.trim now).buckets).map DigestBucket.count).sum = 0 then 0
  else (((d.trim now).buckets).map DigestBucket.total).sum /
    ((((d.trim now).buckets).map DigestBucket.count).sum : ℚ)

/-- The merged sketch built by `percentile`: all live buckets' points. -/
def mergedSamples (d : RollingWindowDigest) (now : ℚ) : List ℚ :=
  (((d.trim now).buckets).map DigestBucket.samples).flatten

/-- Modelled from the spec: the external `tdigest` library's
`percentile(p)` for `0 <= p <= 100` "interpolates within the merged
sketch"; on the exact-list sketch model this is linear interpolation at
rank `p/100 * (n-1)` over the sorted points. -/
def interpPercentile (p : ℚ) (xs : List ℚ) : ℚ :=
  let sorted := List.insertionSort (· ≤ ·) xs
  let n := sorted.length
  let idx : ℚ := p / 100 * ((n : ℚ) - 1)
  let lo : ℕ := min (max ⌊idx⌋ 0).toNat (n - 1)
  let hi : ℕ := min (lo + 1) (n - 1)
  let frac : ℚ := idx - ((⌊idx⌋ : ℤ) : ℚ)
  sorted.getD lo 0 + frac * (sorted.getD hi 0 - sorted.getD lo 0)

/-- `percentile(p)`: merge all live buckets, answer `None` unless the
combined bucket count and the merged sketch's `n` are both at least 2. -/
def percentileAt (d : RollingWindowDigest) (p now : ℚ) : Option ℚ :=
  let total_count := (((d.trim now).buckets).map DigestBucket.count).sum
  let merged := mergedSamples d now
  if total_count < 2 then none
  else if merged.length < 2 then none
  else some (interpPercentile p merged)

/-- Fold a call sequence `add(v₁, t₁); add(v₂, t₂); …` over a digest. -/
def addAll (d : RollingWindowDigest) (ps : List (ℚ × ℚ)) : RollingWindowDigest :=
  ps.foldl (fun s p => s.add p.1 p.2) d

/-- Sum of the plain per-bucket counts (no trim). -/
def sumCounts (l : List DigestBucket) : ℕ := (l.map DigestBucket.count).sum

/-- Sum of the plain per-bucket totals (no trim). -/
def sumTotals (l : List DigestBucket) : ℚ := (l.map DigestBucket.total).sum

theorem add_window_seconds (d : RollingWindowDigest) (v t : ℚ) :
    (d.add v t).window_seconds = d.window_seconds := rfl

theorem add_bucket_seconds (d : RollingWindowDigest) (v t : ℚ) :
    (d.add v t).bucket_seconds = d.bucket_seconds := rfl

theorem addAll_window_seconds (ps : List (ℚ × ℚ)) :
    ∀ d : RollingWindowDigest, (addAll d ps).window_seconds = d.window_seconds := by
  induction ps with
  | nil => intro d; rfl
  | cons p rest ih =>
    intro d
    have h1 : addAll d (p :: rest) = addAll (d.add p.1 p.2) rest := rfl
    rw [h1, ih]
    rfl

theorem addAll_bucket_seconds (ps : List (ℚ × ℚ)) :
    ∀ d : RollingWindowDigest, (addAll d ps).bucket_seconds = d.bucket_seconds := by
  induction ps with
  | nil => intro d; rfl
  | cons p rest ih =>
    intro d
    have h1 : addAll d (p :: rest) = addAll (d.add p.1 p.2) rest := rfl
    rw [h1, ih]
    rfl

theorem trimGo_eq_self (c : ℚ) (l : List DigestBucket)
    (h : ∀ b ∈ l, ¬ b.start < c) : trimGo c l = l := by
  cases l with
  | nil => rfl
  | cons b rest => simp [trimGo, h b (List.mem_cons_self b rest)]

theorem mem_addToBuckets (s v : ℚ) :
    ∀ (l : List DigestBucket) (b' : DigestBucket), b' ∈ addToBuckets s v l →
      b'.start = s ∨ ∃ b ∈ l, b'.start = b.start := by
  intro l
  induction l with
  | nil =>
    intro b' h
    simp only [addToBuckets, List.mem_singleton] at h
    subst h
    exact Or.inl rfl
  | cons hd tl ih =>
    cases tl with
    | nil =>
      intro b' h
      by_cases hs : hd.start = s
      · simp only [addToBuckets, if_pos hs, List.mem_singleton] at h
        subst h
        exact Or.inr ⟨hd, List.mem_singleton_self hd, rfl⟩
      · simp only [addToBuckets, if_neg hs, List.mem_cons, List.mem_singleton,
          List.not_mem_nil, or_false] at h
        rcases h with h | h
        · exact Or.inr ⟨hd, List.mem_cons_self hd _, by rw [h]⟩
        · subst h
          exact Or.inl rfl
    | cons hd2 tl2 =>
      intro b' h
      simp only [addToBuckets, List.mem_cons] at h
      rcases h with h | h
      · exact Or.inr ⟨hd, List.mem_cons_self hd _, by rw [h]⟩
      · rcases ih b' h with h1 | ⟨b, hb, hb'⟩
        · exact Or.inl h1
        · exact Or.inr ⟨b, List.mem_cons_of_mem hd hb, hb'⟩

theorem sumCounts_addToBuckets (s v : ℚ) :
    ∀ l : List DigestBucket, sumCounts (addToBuckets s v l) = sumCounts l + 1 := by
  intro l
  induction l with
  | nil => simp [addToBuckets, sumCounts]
  | cons hd tl ih =>
    cases tl with
    | nil =>
      by_cases hs : hd.start = s <;>
        simp [addToBuckets, hs, sumCounts, pushBucket]
    | cons hd2 tl2 =>
      simp only [addToBuckets, sumCounts, List.map_cons, List.sum_cons]
      have h2 := ih
      simp only [sumCounts, List.map_cons, List.sum_cons] at h2
      rw [h2]
      omega

theorem sumTotals_addToBuckets (s v : ℚ) :
    ∀ l : List DigestBucket, sumTotals (addToBuckets s v l) = sumTotals l + v := by
  intro l
  induction l with
  | nil => simp [addToBuckets, sumTotals]
  | cons hd tl ih =>
    cases tl with
    | nil =>
      by_cases hs : hd.start = s <;>
        simp [addToBuckets, hs, sumTotals, pushBucket]
    | cons hd2 tl2 =>
      simp only [addToBuckets, sumTotals, List.map_cons, List.sum_cons]
      have h2 := ih
      simp only [sumTotals, List.map_cons, List.sum_cons] at h2
      rw [h2]
      ring

/-- Core induction for the exact-count/total property: as long as every
bucket start stays at or above every relevant cutoff, no trim ever drops
a bucket and the plain sums advance by exactly one count (resp. the added
value) per `add` call. `T` collects all times whose cutoffs matter. -/
theorem addAll_exact (pairs : List (ℚ × ℚ)) (T : List ℚ) :
    ∀ S : RollingWindowDigest,
    (∀ b ∈ S.buckets, ∀ t' ∈ T, t' - (S.window_seconds : ℚ) ≤ b.start) →
    (∀ t ∈ pairs.map Prod.snd, ∀ t' ∈ T,
      t' - (S.window_seconds : ℚ) ≤ alignedStart S.bucket_seconds t) →
    (∀ t ∈ pairs.map Prod.snd, t ∈ T) →
    (∀ b ∈ (addAll S pairs).buckets, ∀ t' ∈ T,
      t' - (S.window_seconds : ℚ) ≤ b.start) ∧
    sumCounts (addAll S pairs).buckets = sumCounts S.buckets + pairs.length ∧
    sumTotals (addAll S pairs).buckets = sumTotals S.buckets + (pairs.map Prod.fst).sum := by
  induction pairs with
  | nil =>
    intro S hb _ _
    exact ⟨hb, by simp [addAll], by simp [addAll]⟩
  | cons p rest ih =>
    intro S hb hn hsub
    obtain ⟨v, t⟩ := p
    have hmemt : t ∈ (((v, t) :: rest).map Prod.snd) := by simp
    have htT : t ∈ T := hsub t hmemt
    have hnotrim : ∀ b ∈ S.buckets, ¬ b.start < t - (S.window_seconds : ℚ) := by
      intro b hbmem
      have := hb b hbmem t htT
      linarith
    have htrim : (S.trim t).buckets = S.buckets := by
      simp only [trim]
      exact trimGo_eq_self _ _ hnotrim
    have hadd : (S.add v t).buckets
        = addToBuckets (alignedStart S.bucket_seconds t) v S.buckets := by
      simp only [add, htrim]
    have hw : (S.add v t).window_seconds = S.window_seconds := rfl
    have hbs : (S.add v t).bucket_seconds = S.bucket_seconds := rfl
    have hfold : addAll S ((v, t) :: rest) = addAll (S.add v t) rest := rfl
    have hb' : ∀ b ∈ (S.add v t).buckets, ∀ t' ∈ T,
        t' - ((S.add v t).window_seconds : ℚ) ≤ b.start := by
      intro b' hb'mem t' ht'
      rw [hw]
      rw [hadd] at hb'mem
      rcases mem_addToBuckets _ _ _ _ hb'mem with h1 | ⟨b, hbm, hbs'⟩
      · rw [h1]
        exact hn t hmemt t' ht'
      · rw [hbs']
        exact hb b hbm t' ht'
    have hn' : ∀ t0 ∈ rest.map Prod.snd, ∀ t' ∈ T,
        t' - ((S.add v t).window_seconds : ℚ)
          ≤ alignedStart (S.add v t).bucket_seconds t0 := by
      intro t0 ht0 t' ht'
      rw [hw, hbs]
      exact hn t0 (by simp [ht0]) t' ht'
    have hsub' : ∀ t0 ∈ rest.map Prod.snd, t0 ∈ T := by
      intro t0 ht0
      exact hsub t0 (by simp [ht0])
    obtain ⟨ha, hc, htt⟩ := ih (S.add v t) hb' hn' hsub'
    refine ⟨?_, ?_, ?_⟩
    · intro b hbm t' ht'
      rw [hfold] at hbm
      have h3 := ha b hbm t' ht'
      rw [hw] at h3
      exact h3
    · rw [hfold, hc, hadd, sumCounts_addToBuckets]
      simp only [List.length_cons]
      omega
    · rw [hfold, htt, hadd, sumTotals_addToBuckets]
      simp only [List.map_cons, List.sum_cons]
      ring

theorem alignedStart_le (bs : ℤ) (hbs : 1 ≤ bs) (t : ℚ) :
    alignedStart bs t ≤ t := by
  have hpos : (0 : ℚ) < (bs : ℚ) := by exact_mod_cast hbs
  have h1 : ((⌊t / (bs : ℚ)⌋ : ℚ)) ≤ t / (bs : ℚ) := Int.floor_le _
  have h2 : ((⌊t / (bs : ℚ)⌋ : ℚ)) * (bs : ℚ) ≤ (t / (bs : ℚ)) * (bs : ℚ) :=
    mul_le_mul_of_nonneg_right h1 (le_of_lt hpos)
  have h3 : (t / (bs : ℚ)) * (bs : ℚ) = t := by field_simp
  rw [h3] at h2
  unfold alignedStart
  push_cast
  exact h2

theorem lt_alignedStart (bs : ℤ) (hbs : 1 ≤ bs) (t : ℚ) :
    t - (bs : ℚ) < alignedStart bs t := by
  have hpos : (0 : ℚ) < (bs : ℚ) := by exact_mod_cast hbs
  have h1 : t / (bs : ℚ) - 1 < ((⌊t / (bs : ℚ)⌋ : ℚ)) := Int.sub_one_lt_floor _
  have h2 : (t / (bs : ℚ) - 1) * (bs : ℚ) < ((⌊t / (bs : ℚ)⌋ : ℚ)) * (bs : ℚ) :=
    mul_lt_mul_of_pos_right h1 hpos
  have h3 : (t / (bs : ℚ) - 1) * (bs : ℚ) = t - (bs : ℚ) := by
    field_simp
  rw [h3] at h2
  unfold alignedStart
  push_cast
  exact h2

theorem alignedStart_mono (bs : ℤ) (hbs : 1 ≤ bs) (t t' : ℚ) (h : t ≤ t') :
    alignedStart bs t ≤ alignedStart bs t' := by
  have hpos : (0 : ℚ) < (bs : ℚ) := by exact_mod_cast hbs
  have h1 : t / (bs : ℚ) ≤ t' / (bs : ℚ) := by gcongr
  have h2 : ⌊t / (bs : ℚ)⌋ ≤ ⌊t' / (bs : ℚ)⌋ := Int.floor_le_floor h1
  unfold alignedStart
  push_cast
  have : ((⌊t / (bs : ℚ)⌋ : ℚ)) ≤ ((⌊t' / (bs : ℚ)⌋ : ℚ)) := by exact_mod_cast h2
  exact mul_le_mul_of_nonneg_right this (le_of_lt hpos)

theorem trimGo_sublist (c : ℚ) :
    ∀ l : List DigestBucket, List.Sublist (trimGo c l) l := by
  intro l
  induction l with
  | nil => simp [trimGo]
  | cons b rest ih =>
    by_cases hb : b.start < c
    · simp only [trimGo, if_pos hb]
      exact ih.trans (List.sublist_cons_self b rest)
    · simp [trimGo, hb]

theorem trimGo_ge (c : ℚ) :
    ∀ l : List DigestBucket, (l.map DigestBucket.start).Pairwise (· < ·) →
      ∀ b ∈ trimGo c l, c ≤ b.start := by
  intro l
  induction l with
  | nil => simp [trimGo]
  | cons hd rest ih =>
    intro hp b hb
    simp only [List.map_cons, List.pairwise_cons] at hp
    by_cases hhd : hd.start < c
    · simp only [trimGo, if_pos hhd] at hb
      exact ih hp.2 b hb
    · simp only [trimGo, if_neg hhd, List.mem_cons] at hb
      push_neg at hhd
      rcases hb with hb | hb
      · rw [hb]; exact hhd
      · have := hp.1 b.start (List.mem_map_of_mem DigestBucket.start hb)
        linarith

theorem addToBuckets_pairwise (s v : ℚ) :
    ∀ l : List DigestBucket, (l.map DigestBucket.start).Pairwise (· < ·) →
      (∀ b ∈ l, b.start ≤ s) →
      ((addToBuckets s v l).map DigestBucket.start).Pairwise (· < ·) := by
  intro l
  induction l with
  | nil => intro _ _; simp [addToBuckets]
  | cons hd tl ih =>
    intro hp hle
    cases tl with
    | nil =>
      by_cases hs : hd.start = s
      · simp [addToBuckets, hs, pushBucket]
      · have : hd.start < s := lt_of_le_of_ne (hle hd (by simp)) hs
        simp [addToBuckets, hs, this]
    | cons hd2 tl2 =>
      rw [List.map_cons, List.pairwise_cons] at hp
      have hrec := ih hp.2 (fun b hb => hle b (List.mem_cons_of_mem hd hb))
      simp only [addToBuckets, List.map_cons, List.pairwise_cons]
      refine ⟨?_, hrec⟩
      intro a ha
      simp only [List.mem_map] at ha
      obtain ⟨b', hb'mem, hb'⟩ := ha
      rcases mem_addToBuckets s v _ b' hb'mem with h1 | ⟨b2, hb2, heq⟩
      · rw [← hb', h1]
        have h2 : hd.start < hd2.start := hp.1 hd2.start (by simp)
        have h3 : hd2.start ≤ s := hle hd2 (by simp)
        linarith
      · rw [← hb', heq]
        exact hp.1 b2.start (List.mem_map_of_mem DigestBucket.start hb2)

theorem pairwise_le_getLast :
    ∀ (l : List ℚ) (h : l ≠ []), l.Pairwise (· ≤ ·) → ∀ x ∈ l, x ≤ l.getLast h := by
  intro l
  induction l with
  | nil => intro h; exact absurd rfl h
  | cons a tl ih =>
    intro _ hp x hx
    cases tl with
    | nil =>
      simp only [List.mem_singleton] at hx
      simp [hx, List.getLast]
    | cons b tl2 =>
      rw [List.pairwise_cons] at hp
      rw [List.getLast_cons (by simp)]
      rcases List.mem_cons.mp hx with hx | hx
      · subst hx
        have hb : (b :: tl2).getLast (by simp) ∈ b :: tl2 := List.getLast_mem _
        exact hp.1 _ hb
      · exact ih (by simp) hp.2 x hx

/-- Core induction for the temporal-order invariant: along a
non-decreasing timestamp sequence, starting from a state whose bucket
starts are strictly increasing and bounded above by the aligned start of
the current time, every `add` preserves the invariant (with the current
time advanced), for every window and bucket configuration. -/
theorem addAll_pairwise_inv (pairs : List (ℚ × ℚ)) :
    ∀ (S : RollingWindowDigest) (tcur : ℚ),
    1 ≤ S.bucket_seconds →
    List.Chain' (· ≤ ·) (tcur :: pairs.map Prod.snd) →
    ((S.buckets.map DigestBucket.start).Pairwise (· < ·) ∧
      (∀ b ∈ S.buckets, b.start ≤ alignedStart S.bucket_seconds tcur)) →
    (((addAll S pairs).buckets.map DigestBucket.start).Pairwise (· < ·) ∧
      (∀ b ∈ (addAll S pairs).buckets, b.start ≤ alignedStart S.bucket_seconds
        ((tcur :: pairs.map Prod.snd).getLast (by simp)))) := by
  induction pairs with
  | nil =>
    intro S tcur _ _ hinv
    simpa [addAll] using hinv
  | cons pr rest ih =>
    intro S tcur hbs1 hchain hinv
    obtain ⟨v, t⟩ := pr
    obtain ⟨hpair, hub⟩ := hinv
    simp only [List.map_cons, List.chain'_cons] at hchain
    obtain ⟨htcur, hchain'⟩ := hchain
    set s := alignedStart S.bucket_seconds t with hs
    have hsurv_mem : ∀ b ∈ trimGo (t - (S.window_seconds : ℚ)) S.buckets, b ∈ S.buckets :=
      fun b hb => (trimGo_sublist _ _).mem hb
    have hsurv_pair : ((trimGo (t - (S.window_seconds : ℚ)) S.buckets).map
        DigestBucket.start).Pairwise (· < ·) :=
      hpair.sublist ((trimGo_sublist _ _).map DigestBucket.start)
    have hsurv_le : ∀ b ∈ trimGo (t - (S.window_seconds : ℚ)) S.buckets, b.start ≤ s := by
      intro b hb
      calc b.start ≤ alignedStart S.bucket_seconds tcur := hub b (hsurv_mem b hb)
        _ ≤ s := alignedStart_mono _ hbs1 _ _ htcur
    have haddb : (S.add v t).buckets
        = addToBuckets s v (trimGo (t - (S.window_seconds : ℚ)) S.buckets) := rfl
    have hstep_pair : ((S.add v t).buckets.map DigestBucket.start).Pairwise (· < ·) := by
      rw [haddb]
      exact addToBuckets_pairwise s v _ hsurv_pair hsurv_le
    have hstep_ub : ∀ b ∈ (S.add v t).buckets, b.start ≤ alignedStart S.bucket_seconds t := by
      intro b hb
      rw [haddb] at hb
      rcases mem_addToBuckets s v _ b hb with h1 | ⟨b2, hb2, heq⟩
      · rw [h1]
      · rw [heq]
        exact hsurv_le b2 hb2
    have hb' : (S.add v t).bucket_seconds = S.bucket_seconds := rfl
    have hfold : addAll S ((v, t) :: rest) = addAll (S.add v t) rest := rfl
    have hres := ih (S.add v t) t (by rw [hb']; exact hbs1)
      (by simpa using hchain')
      (by
        rw [hb']
        exact ⟨hstep_pair, hstep_ub⟩)
    rw [hb'] at hres
    obtain ⟨h1, h2⟩ := hres
    rw [hfold]
    have hlast : ((tcur :: ((v, t) :: rest).map Prod.snd).getLast (by simp))
        = ((t :: rest.map Prod.snd).getLast (by simp)) := by
      simp only [List.map_cons]
      rw [List.getLast_cons (by simp)]
    refine ⟨h1, ?_⟩
    intro b hb
    rw [hlast]
    exact h2 b hb

/-- _trim only pops buckets: the surviving samples are a sub-list of the
samples held before the trim. -/
theorem flatten_samples_trimGo (c : ℚ) :
    ∀ l : List DigestBucket,
      List.Sublist (((trimGo c l).map DigestBucket.samples).flatten)
        ((l.map DigestBucket.samples).flatten) := by
  intro l
  induction l with
  | nil => simp [trimGo]
  | cons b rest ih =>
    by_cases hb : b.start < c
    · simp only [trimGo, if_pos hb, List.map_cons, List.flatten_cons]
      exact ih.trans (List.sublist_append_right _ _)
    · simp only [trimGo, if_neg hb]
      exact List.Sublist.refl _

/-- One `add` step appends exactly the new value to the (post-trim) live
samples, whether it reuses the last bucket or opens a fresh one. -/
theorem flatten_samples_addToBuckets (s v : ℚ) :
    ∀ l : List DigestBucket,
      ((addToBuckets s v l).map DigestBucket.samples).flatten
        = (l.map DigestBucket.samples).flatten ++ [v] := by
  intro l
  induction l with
  | nil => simp [addToBuckets]
  | cons b rest ih =>
    cases rest with
    | nil =>
      by_cases hs : b.start = s
      · simp [addToBuckets, hs, pushBucket]
      · simp [addToBuckets, hs]
    | cons b2 rest2 =>
      have h : addToBuckets s v (b :: b2 :: rest2) = b :: addToBuckets s v (b2 :: rest2) := rfl
      rw [h, List.map_cons, List.flatten_cons, ih]
      simp [List.append_assoc]

theorem flatten_samples_add (d : RollingWindowDigest) (v t : ℚ) :
    (((d.add v t).buckets).map DigestBucket.samples).flatten
      = ((((d.trim t).buckets).map DigestBucket.samples)).flatten ++ [v] :=
  flatten_samples_addToBuckets _ _ _

theorem addAll_append (d : RollingWindowDigest) (p q : List (ℚ × ℚ)) :
    addAll d (p ++ q) = addAll (addAll d p) q := by
  simp [addAll, List.foldl_append]

/-- Samples are never re-inserted: after any further call sequence, the
live samples are a sub-list of the currently live samples followed by the
newly added values — data dropped before this point cannot reappear. -/
theorem flatten_samples_addAll :
    ∀ (qs : List (ℚ × ℚ)) (d : RollingWindowDigest),
      List.Sublist (((addAll d qs).buckets.map DigestBucket.samples).flatten)
        ((d.buckets.map DigestBucket.samples).flatten ++ qs.map Prod.fst) := by
  intro qs
  induction qs with
  | nil =>
    intro d
    simp only [addAll, List.foldl_nil, List.map_nil, List.append_nil]
    exact List.Sublist.refl _
  | cons pr rest ih =>
    intro d
    obtain ⟨v, t⟩ := pr
    have h1 : addAll d ((v, t) :: rest) = addAll (d.add v t) rest := rfl
    rw [h1]
    have h2 := ih (d.add v t)
    rw [flatten_samples_add] at h2
    have h3 : List.Sublist
        (((((d.trim t).buckets).map DigestBucket.samples)).flatten ++ [v]
          ++ rest.map Prod.fst)
        ((d.buckets.map DigestBucket.samples).flatten ++ [v] ++ rest.map Prod.fst) :=
      List.Sublist.append
        (List.Sublist.append (flatten_samples_trimGo _ _) (List.Sublist.refl _))
        (List.Sublist.refl _)
    have h4 := h2.trans h3
    have h5 : (d.buckets.map DigestBucket.samples).flatten ++ [v] ++ rest.map Prod.fst
        = (d.buckets.map DigestBucket.samples).flatten ++ ((v, t) :: rest).map Prod.fst := by
      simp [List.append_assoc]
    rw [h5] at h4
    exact h4

theorem wf_pushBucket (b : DigestBucket) (v : ℚ)
    (h : b.count = b.samples.length ∧ b.total = b.samples.sum) :
    (pushBucket b v).count = (pushBucket b v).samples.length ∧
      (pushBucket b v).total = (pushBucket b v).samples.sum := by
  obtain ⟨h1, h2⟩ := h
  constructor
  · simp [pushBucket, h1]
  · simp [pushBucket, h2]

/-- `add` maintains per-bucket well-formedness: the count is the number
of sketch samples and the total is their sum. -/
theorem wf_addToBuckets (s v : ℚ) :
    ∀ l : List DigestBucket,
      (∀ b ∈ l, b.count = b.samples.length ∧ b.total = b.samples.sum) →
      ∀ b ∈ addToBuckets s v l, b.count = b.samples.length ∧ b.total = b.samples.sum := by
  intro l
  induction l with
  | nil =>
    intro _ b hb
    simp only [addToBuckets, List.mem_singleton] at hb
    subst hb
    constructor <;> simp
  | cons b0 rest ih =>
    intro hl b hb
    cases rest with
    | nil =>
      by_cases hs : b0.start = s
      · simp only [addToBuckets, if_pos hs, List.mem_singleton] at hb
        subst hb
        exact wf_pushBucket b0 v (hl b0 (by simp))
      · simp only [addToBuckets, if_neg hs, List.mem_cons, List.mem_singleton,
          List.not_mem_nil, or_false] at hb
        rcases hb with hb | hb
        · rw [hb]
          exact hl b0 (by simp)
        · rw [hb]
          constructor <;> simp
    | cons b2 rest2 =>
      have hred : addToBuckets s v (b0 :: b2 :: rest2)
          = b0 :: addToBuckets s v (b2 :: rest2) := rfl
      rw [hred] at hb
      rcases List.mem_cons.mp hb with hb | hb
      · rw [hb]
        exact hl b0 (by simp)
      · exact ih (fun b' hb' => hl b' (List.mem_cons_of_mem _ hb')) b hb

theorem wf_add (d : RollingWindowDigest) (v t : ℚ)
    (h : ∀ b ∈ d.buckets, b.count = b.samples.length ∧ b.total = b.samples.sum) :
    ∀ b ∈ (d.add v t).buckets, b.count = b.samples.length ∧ b.total = b.samples.sum := by
  intro b hb
  have hb' : b ∈ addToBuckets (alignedStart d.bucket_seconds t) v
      (trimGo (t - (d.window_seconds : ℚ)) d.buckets) := hb
  exact wf_addToBuckets _ _ _
    (fun b' hb'' => h b' ((trimGo_sublist _ _).mem hb'')) b hb'

theorem wf_addAll :
    ∀ (qs : List (ℚ × ℚ)) (d : RollingWindowDigest),
      (∀ b ∈ d.buckets, b.count = b.samples.length ∧ b.total = b.samples.sum) →
      ∀ b ∈ (addAll d qs).buckets,
        b.count = b.samples.length ∧ b.total = b.samples.sum := by
  intro qs
  induction qs with
  | nil =>
    intro d h
    exact h
  | cons pr rest ih =>
    intro d h
    have hred : addAll d (pr :: rest) = addAll (d.add pr.1 pr.2) rest := rfl
    rw [hred]
    exact ih (d.add pr.1 pr.2) (wf_add d pr.1 pr.2 h)

end RollingWindowDigest

/-- Minimum of a list of values (`min(window values)`), `none` when empty. -/
def listMin : List ℚ → Option ℚ
  | [] => none
  | x :: xs => some (xs.foldl min x)

/-- Maximum of a list of values (`max(window values)`), `none` when empty. -/
def listMax : List ℚ → Option ℚ
  | [] => none
  | x :: xs => some (xs.foldl max x)

theorem foldl_min_le : ∀ (xs : List ℚ) (a y : ℚ), (y = a ∨ y ∈ xs) → xs.foldl min a ≤ y := by
  intro xs
  induction xs with
  | nil =>
    intro a y hy
    rcases hy with hy | hy
    · simp [hy]
    · simp at hy
  | cons x xs ih =>
    intro a y hy
    simp only [List.foldl_cons]
    rcases hy with hy | hy
    · subst hy
      exact (ih (min y x) (min y x) (Or.inl rfl)).trans (min_le_left y x)
    · rcases List.mem_cons.mp hy with hy | hy
      · subst hy
        exact (ih (min a y) (min a y) (Or.inl rfl)).trans (min_le_right a y)
      · exact ih (min a x) y (Or.inr hy)

theorem le_foldl_max : ∀ (xs : List ℚ) (a y : ℚ), (y = a ∨ y ∈ xs) → y ≤ xs.foldl max a := by
  intro xs
  induction xs with
  | nil =>
    intro a y hy
    rcases hy with hy | hy
    · simp [hy]
    · simp at hy
  | cons x xs ih =>
    intro a y hy
    simp only [List.foldl_cons]
    rcases hy with hy | hy
    · subst hy
      exact (le_max_left y x).trans (ih (max y x) (max y x) (Or.inl rfl))
    · rcases List.mem_cons.mp hy with hy | hy
      · subst hy
        exact (le_max_right a y).trans (ih (max a y) (max a y) (Or.inl rfl))
      · exact ih (max a x) y (Or.inr hy)

theorem listMin_le_mem (l : List ℚ) (m : ℚ) (hm : listMin l = some m) :
    ∀ x ∈ l, m ≤ x := by
  cases l with
  | nil => simp [listMin] at hm
  | cons a xs =>
    simp only [listMin, Option.some_inj] at hm
    intro x hx
    rw [← hm]
    rcases List.mem_cons.mp hx with hx | hx
    · exact foldl_min_le xs a x (Or.inl hx)
    · exact foldl_min_le xs a x (Or.inr hx)

theorem mem_le_listMax (l : List ℚ) (M : ℚ) (hM : listMax l = some M) :
    ∀ x ∈ l, x ≤ M := by
  cases l with
  | nil => simp [listMax] at hM
  | cons a xs =>
    simp only [listMax, Option.some_inj] at hM
    intro x hx
    rw [← hM]
    rcases List.mem_cons.mp hx with hx | hx
    · exact le_foldl_max xs a x (Or.inl hx)
    · exact le_foldl_max xs a x (Or.inr hx)

theorem listMin_isSome (l : List ℚ) (h : l ≠ []) : ∃ m, listMin l = some m := by
  cases l with
  | nil => exact absurd rfl h
  | cons a xs => exact ⟨xs.foldl min a, rfl⟩

theorem listMax_isSome (l : List ℚ) (h : l ≠ []) : ∃ M, listMax l = some M := by
  cases l with
  | nil => exact absurd rfl h
  | cons a xs => exact ⟨xs.foldl max a, rfl⟩

theorem length_flatten_samples (l : List DigestBucket)
    (hwf : ∀ b ∈ l, b.count = b.samples.length) :
    ((l.map DigestBucket.samples).flatten).length = RollingWindowDigest.sumCounts l := by
  induction l with
  | nil => simp [RollingWindowDigest.sumCounts]
  | cons b rest ih =>
    simp only [List.map_cons, List.flatten_cons, List.length_append,
      RollingWindowDigest.sumCounts, List.sum_cons]
    have h1 := hwf b (List.mem_cons_self b rest)
    have h2 := ih (fun b' hb' => hwf b' (List.mem_cons_of_mem b hb'))
    simp only [RollingWindowDigest.sumCounts] at h2
    omega

theorem sum_flatten_samples (l : List DigestBucket)
    (hwf : ∀ b ∈ l, b.total = b.samples.sum) :
    ((l.map DigestBucket.samples).flatten).sum = RollingWindowDigest.sumTotals l := by
  induction l with
  | nil => simp [RollingWindowDigest.sumTotals]
  | cons b rest ih =>
    simp only [List.map_cons, List.flatten_cons, List.sum_append,
      RollingWindowDigest.sumTotals, List.sum_cons]
    have h1 := hwf b (List.mem_cons_self b rest)
    have h2 := ih (fun b' hb' => hwf b' (List.mem_cons_of_mem b hb'))
    simp only [RollingWindowDigest.sumTotals] at h2
    rw [h1, h2]

/-- The interpolated value lies between two list entries of the sorted
list, hence between the minimum and the maximum of the underlying list. -/
theorem interpPercentile_bounds (p : ℚ) (xs : List ℚ) (m M : ℚ)
    (hlen : 2 ≤ xs.length)
    (hp0 : 0 ≤ p) (hp1 : p ≤ 100)
    (hm : listMin xs = some m) (hM : listMax xs = some M) :
    m ≤ RollingWindowDigest.interpPercentile p xs ∧
      RollingWindowDigest.interpPercentile p xs ≤ M := by
  have hperm : (List.insertionSort (· ≤ ·) xs).Perm xs := List.perm_insertionSort _ xs
  have hsorted : (List.insertionSort (· ≤ ·) xs).Sorted (· ≤ ·) :=
    List.sorted_insertionSort (· ≤ ·) xs
  set sorted := List.insertionSort (· ≤ ·) xs with hsortedDef
  have hslen : sorted.length = xs.length := hperm.length_eq
  set n := sorted.length with hn
  have hn2 : 2 ≤ n := by rw [hslen]; exact hlen
  set idx : ℚ := p / 100 * ((n : ℚ) - 1) with hidx
  have hidx0 : 0 ≤ idx := by
    apply mul_nonneg (by positivity)
    have : (2 : ℚ) ≤ (n : ℚ) := by exact_mod_cast hn2
    linarith
  have hidxn : idx ≤ (n : ℚ) - 1 := by
    rw [hidx]
    have h100 : p / 100 ≤ 1 := by linarith [div_le_one_of_le₀ hp1 (by norm_num : (0:ℚ) ≤ 100)]
    have : (2 : ℚ) ≤ (n : ℚ) := by exact_mod_cast hn2
    nlinarith
  have hfl0 : 0 ≤ ⌊idx⌋ := Int.floor_nonneg.mpr hidx0
  have hmax : max ⌊idx⌋ 0 = ⌊idx⌋ := max_eq_left hfl0
  set lo : ℕ := min (max ⌊idx⌋ 0).toNat (n - 1) with hlo
  set hi : ℕ := min (lo + 1) (n - 1) with hhi
  have hlo_lt : lo < n := by
    have : lo ≤ n - 1 := min_le_right _ _
    omega
  have hhi_lt : hi < n := by
    have : hi ≤ n - 1 := min_le_right _ _
    omega
  have hlohi : lo ≤ hi := by
    rw [hhi]
    exact le_min (by omega) (min_le_right _ _)
  set frac : ℚ := idx - ((⌊idx⌋ : ℤ) : ℚ) with hfrac
  have hfrac0 : 0 ≤ frac := by
    rw [hfrac]
    have := Int.floor_le idx
    linarith
  have hfrac1 : frac ≤ 1 := by
    rw [hfrac]
    have := Int.lt_floor_add_one idx
    push_cast at this ⊢
    linarith
  have hgetD : ∀ i : ℕ, i < n → sorted.getD i 0 ∈ xs := by
    intro i hi'
    have hmem : sorted.getD i 0 ∈ sorted := by
      rw [List.getD_eq_getElem?_getD, List.getElem?_eq_getElem hi']
      exact List.getElem_mem _
    exact hperm.mem_iff.mp hmem
  have ha_mem : sorted.getD lo 0 ∈ xs := hgetD lo hlo_lt
  have hb_mem : sorted.getD hi 0 ∈ xs := hgetD hi hhi_lt
  have hab : sorted.getD lo 0 ≤ sorted.getD hi 0 := by
    rcases Nat.lt_or_ge lo hi with hlt | hge
    · have hpw : sorted.Pairwise (· ≤ ·) := hsorted
      rw [List.pairwise_iff_get] at hpw
      have := hpw ⟨lo, hlo_lt⟩ ⟨hi, hhi_lt⟩ (by simpa using hlt)
      rw [List.getD_eq_getElem?_getD, List.getElem?_eq_getElem hlo_lt,
        List.getD_eq_getElem?_getD, List.getElem?_eq_getElem hhi_lt]
      simpa [List.get_eq_getElem] using this
    · exact (congrArg (fun i => sorted.getD i 0) (le_antisymm hlohi hge)).le
  have hresult : RollingWindowDigest.interpPercentile p xs
      = sorted.getD lo 0 + frac * (sorted.getD hi 0 - sorted.getD lo 0) := by
    rw [RollingWindowDigest.interpPercentile]
  have hma : m ≤ sorted.getD lo 0 := listMin_le_mem xs m hm _ ha_mem
  have hbM : sorted.getD hi 0 ≤ M := mem_le_listMax xs M hM _ hb_mem
  constructor
  · rw [hresult]
    nlinarith [mul_nonneg hfrac0 (sub_nonneg.mpr hab)]
  · rw [hresult]
    nlinarith [mul_nonneg (sub_nonneg.mpr hfrac1) (sub_nonneg.mpr hab)]

/-! ### `PulseMetrics` (`metrics.py`, lines 107–281)

`record_request` and `get_metrics` run under `self._lock`; each call is
one atomic state transition, so the embedding is a pure state-passing
function per call. All `time.time()` reads inside one `record_request`
call are modelled by the single `now` argument. The only fallible path —
`min()` over an empty `_endpoint_access_times` dict raising `ValueError`
when `max_endpoints` is 0 — is modelled with `Option`. -/

/-- One value of the `endpoint_metrics` defaultdict. -/
structure EndpointRecord where
  total_requests : ℕ
  success_count : ℕ
  error_count : ℕ
  avg_response_time : ℚ
  p95_response_time : ℚ
  p99_response_time : ℚ
  window_seconds : ℤ
deriving DecidableEq

/-- The defaultdict factory for `endpoint_metrics`. -/
def defaultEndpointRecord (w : ℤ) : EndpointRecord :=
  { total_requests := 0, success_count := 0, error_count := 0
    avg_response_time := 0, p95_response_time := 0, p99_response_time := 0
    window_seconds := w }

/-- Thread-safe performance metrics collector (`PulseMetrics`). -/
structure PulseMetrics where
  max_samples : ℕ
  window_seconds : ℤ
  bucket_seconds : ℤ
  max_endpoints : ℕ
  request_counts : List (String × ℕ)
  error_counts : List (String × ℕ)
  status_codes : List (String × List (ℤ × ℕ))
  endpoint_metrics : List (String × EndpointRecord)
  latency_trackers : List (String × RollingWindowDigest)
  global_latency : RollingWindowDigest
  endpoint_access_times : List (String × ℚ)
deriving DecidableEq

namespace PulseMetrics

/-- `__init__`: all storage starts empty. -/
def init (maxSamples : ℕ) (windowSeconds bucketSeconds : ℤ) (maxEndpoints : ℕ) :
    PulseMetrics :=
  { max_samples := maxSamples
    window_seconds := windowSeconds
    bucket_seconds := bucketSeconds
    max_endpoints := maxEndpoints
    request_counts := []
    error_counts := []
    status_codes := []
    endpoint_metrics := []
    latency_trackers := []
    global_latency := RollingWindowDigest.init windowSeconds bucketSeconds
    endpoint_access_times := [] }

/-- `_evict_endpoint(key)`: pop the key from all six storage structures. -/
def evictEndpoint (s : PulseMetrics) (key : String) : PulseMetrics :=
  { s with
    request_counts := aerase s.request_counts key
    error_counts := aerase s.error_counts key
    status_codes := aerase s.status_codes key
    endpoint_metrics := aerase s.endpoint_metrics key
    latency_trackers := aerase s.latency_trackers key
    endpoint_access_times := aerase s.endpoint_access_times key }

/-- Lines 194–211 of `record_request`: the update of one
`endpoint_metrics` record (total, success/error, avg, p95/p99 — the
percentiles are only overwritten when not `None`). -/
def updatedRecord (old : EndpointRecord) (status_code : ℤ)
    (tracker : RollingWindowDigest) (now : ℚ) : EndpointRecord :=
  let m1 := { old with total_requests := old.total_requests + 1 }
  let m2 := if status_code < 400 then { m1 with success_count := m1.success_count + 1 }
    else { m1 with error_count := m1.error_count + 1 }
  let m3 := { m2 with avg_response_time := tracker.meanAt now }
  let m4 := match tracker.percentileAt 95 now with
    | none => m3
    | some v => { m3 with p95_response_time := v }
  match tracker.percentileAt 99 now with
  | none => m4
  | some v => { m4 with p99_response_time := v }

/-- Lines 177–211 of `record_request`: the unconditional updates after the
eviction check (access time, counters, histogram, latency, error count,
endpoint metrics). -/
def recordBody (s : PulseMetrics) (key : String) (status_code : ℤ)
    (duration_ms : ℚ) (now : ℚ) : PulseMetrics :=
  let s2 := { s with endpoint_access_times := aupd s.endpoint_access_times key now }
  let s3 := { s2 with
              request_counts :=
                aupd s2.request_counts key (alookupD s2.request_counts key 0 + 1) }
  let s4 := { s3 with
              status_codes :=
                aupd s3.status_codes key
                  (aupd (alookupD s3.status_codes key []) status_code
                    (alookupD (alookupD s3.status_codes key []) status_code 0 + 1)) }
  let tracker := (alookupD s4.latency_trackers key
    (RollingWindowDigest.init s.window_seconds s.bucket_seconds)).add duration_ms now
  let s5 := { s4 with latency_trackers := aupd s4.latency_trackers key tracker }
  let s6 := { s5 with global_latency := s5.global_latency.add duration_ms now }
  let s7 := if 400 ≤ status_code then
      { s6 with
        error_counts := aupd s6.error_counts key (alookupD s6.error_counts key 0 + 1) }
    else s6
  let m0 := alookupD s7.endpoint_metrics key (defaultEndpointRecord s.window_seconds)
  { s7 with endpoint_metrics :=
              aupd s7.endpoint_metrics key (updatedRecord m0 status_code tracker now) }

/-- `record_request(endpoint, method, status_code, duration_ms,
correlation_id)`. The `correlation_id` parameter is accepted and unused,
as in the source. `none` models the `ValueError` that `min()` raises on an
empty access-time dict (only reachable with `max_endpoints = 0`). -/
def recordRequest (s : PulseMetrics) (endpoint method : String) (status_code : ℤ)
    (duration_ms : ℚ) (_correlation_id : Option String) (now : ℚ) :
    Option PulseMetrics :=
  let key := method ++ " " ++ endpoint
  let afterEvict : Option PulseMetrics :=
    if alookup s.request_counts key = none then
      if s.max_endpoints ≤ s.request_counts.length then
        match firstMinBySnd s.endpoint_access_times with
        | none => none
        | some oldest => some (evictEndpoint s oldest.1)
      else some s
    else some s
  match afterEvict with
  | none => none
  | some s1 => some (recordBody s1 key status_code duration_ms now)

/-- Reachability invariant maintained by the collector: every storage
dict has unique keys, and `request_counts` and `_endpoint_access_times`
always track exactly the same key set. -/
def Inv (s : PulseMetrics) : Prop :=
  (akeys s.request_counts).Nodup ∧
  (akeys s.error_counts).Nodup ∧
  (akeys s.status_codes).Nodup ∧
  (akeys s.endpoint_metrics).Nodup ∧
  (akeys s.latency_trackers).Nodup ∧
  (akeys s.endpoint_access_times).Nodup ∧
  (∀ k ∈ akeys s.endpoint_access_times, k ∈ akeys s.request_counts) ∧
  (∀ k ∈ akeys s.request_counts, k ∈ akeys s.endpoint_access_times)

instance (s : PulseMetrics) : Decidable (Inv s) := by
  unfold Inv
  infer_instance

end PulseMetrics

section MoreAListLemmas

variable {κ α : Type} [DecidableEq κ]

theorem mem_akeys_iff_exists (l : List (κ × α)) (k : κ) :
    k ∈ akeys l ↔ ∃ v, alookup l k = some v := by
  constructor
  · intro h
    induction l with
    | nil => simp [akeys] at h
    | cons hd t ih =>
      obtain ⟨k', w⟩ := hd
      by_cases hk : k' = k
      · exact ⟨w, by simp [alookup, hk]⟩
      · simp only [akeys, List.map_cons, List.mem_cons] at h
        rcases h with h | h
        · exact absurd h.symm hk
        · obtain ⟨v, hv⟩ := ih (by simpa [akeys] using h)
          exact ⟨v, by simp [alookup, hk, hv]⟩
  · rintro ⟨v, hv⟩
    exact mem_akeys_of_alookup l k v hv

theorem alookup_of_mem_nodup (l : List (κ × α)) (k : κ) (v : α)
    (hmem : (k, v) ∈ l) (hnd : (akeys l).Nodup) : alookup l k = some v := by
  induction l with
  | nil => simp at hmem
  | cons hd t ih =>
    obtain ⟨k', w⟩ := hd
    simp only [akeys, List.map_cons, List.nodup_cons] at hnd
    rcases List.mem_cons.mp hmem with h | h
    · injection h with h1 h2
      simp [alookup, h1.symm, h2]
    · have hk : ¬ (k' = k) := by
        intro he
        subst he
        exact hnd.1 (by
          have : k' ∈ akeys t := List.mem_map_of_mem Prod.fst h
          simpa [akeys] using this)
      simp [alookup, hk, ih h hnd.2]

theorem mem_akeys_aerase_of_ne (l : List (κ × α)) (k j : κ) (hne : j ≠ k) :
    j ∈ akeys (aerase l k) ↔ j ∈ akeys l := by
  rw [mem_akeys_iff_exists, mem_akeys_iff_exists]
  constructor
  · rintro ⟨v, hv⟩
    exact ⟨v, by rwa [alookup_aerase_ne l k j hne] at hv⟩
  · rintro ⟨v, hv⟩
    exact ⟨v, by rwa [alookup_aerase_ne l k j hne]⟩

theorem not_mem_akeys_aerase_self (l : List (κ × α)) (k : κ)
    (hnd : (akeys l).Nodup) : ¬ k ∈ akeys (aerase l k) := by
  intro h
  obtain ⟨v, hv⟩ := (mem_akeys_iff_exists _ _).mp h
  rw [alookup_aerase_self l k hnd] at hv
  exact Option.noConfusion hv

end MoreAListLemmas

theorem foldlMin_spec : ∀ {κ : Type} (xs : List (κ × ℚ)) (a : κ × ℚ),
    ((xs.foldl (fun acc y => if y.2 < acc.2 then y else acc) a) = a ∨
      (xs.foldl (fun acc y => if y.2 < acc.2 then y else acc) a) ∈ xs) ∧
    (xs.foldl (fun acc y => if y.2 < acc.2 then y else acc) a).2 ≤ a.2 ∧
    (∀ p ∈ xs, (xs.foldl (fun acc y => if y.2 < acc.2 then y else acc) a).2 ≤ p.2) := by
  intro κ xs
  induction xs with
  | nil => intro a; simp
  | cons x xs ih =>
    intro a
    simp only [List.foldl_cons]
    by_cases hx : x.2 < a.2
    · simp only [if_pos hx]
      obtain ⟨h1, h2, h3⟩ := ih x
      refine ⟨?_, ?_, ?_⟩
      · rcases h1 with h1 | h1
        · exact Or.inr (by simp [h1])
        · exact Or.inr (List.mem_cons_of_mem x h1)
      · linarith
      · intro p hp
        rcases List.mem_cons.mp hp with hp | hp
        · subst hp; exact h2
        · exact h3 p hp
    · simp only [if_neg hx]
      obtain ⟨h1, h2, h3⟩ := ih a
      push_neg at hx
      refine ⟨?_, h2, ?_⟩
      · rcases h1 with h1 | h1
        · exact Or.inl h1
        · exact Or.inr (List.mem_cons_of_mem x h1)
      · intro p hp
        rcases List.mem_cons.mp hp with hp | hp
        · subst hp; linarith
        · exact h3 p hp

/-- Python's `min(d.items(), key=...)` on a nonempty dict returns an item
of the dict whose value is minimal. -/
theorem firstMinBySnd_spec {κ : Type} (l : List (κ × ℚ)) (h : l ≠ []) :
    ∃ kt, firstMinBySnd l = some kt ∧ kt ∈ l ∧ ∀ p ∈ l, kt.2 ≤ p.2 := by
  cases l with
  | nil => exact absurd rfl h
  | cons x xs =>
    obtain ⟨h1, h2, h3⟩ := foldlMin_spec xs x
    refine ⟨_, rfl, ?_, ?_⟩
    · rcases h1 with h1 | h1
      · rw [h1]; exact List.mem_cons_self x xs
      · exact List.mem_cons_of_mem x h1
    · intro p hp
      rcases List.mem_cons.mp hp with hp | hp
      · subst hp; exact h2
      · exact h3 p hp

theorem RollingWindowDigest.mem_samples_addToBuckets (s v : ℚ) :
    ∀ l : List DigestBucket,
      v ∈ ((RollingWindowDigest.addToBuckets s v l).map DigestBucket.samples).flatten := by
  intro l
  induction l with
  | nil => simp [RollingWindowDigest.addToBuckets]
  | cons hd tl ih =>
    cases tl with
    | nil =>
      by_cases hs : hd.start = s <;>
        simp [RollingWindowDigest.addToBuckets, hs, RollingWindowDigest.pushBucket]
    | cons hd2 tl2 =>
      simp only [RollingWindowDigest.addToBuckets, List.map_cons, List.flatten_cons,
        List.mem_append]
      right
      simpa using ih

/-- The added value is among the samples of the post-`add` bucket list. -/
theorem RollingWindowDigest.mem_samples_add (d : RollingWindowDigest) (v t : ℚ) :
    v ∈ (((d.add v t).buckets).map DigestBucket.samples).flatten :=
  RollingWindowDigest.mem_samples_addToBuckets _ _ _

namespace PulseMetrics

theorem updatedRecord_total_requests (old : EndpointRecord) (st : ℤ)
    (tr : RollingWindowDigest) (now : ℚ) :
    (updatedRecord old st tr now).total_requests = old.total_requests + 1 := by
  unfold updatedRecord
  cases h95 : tr.percentileAt 95 now <;> cases h99 : tr.percentileAt 99 now <;>
    by_cases h : st < 400 <;> simp [h95, h99, h]

theorem updatedRecord_success_count (old : EndpointRecord) (st : ℤ)
    (tr : RollingWindowDigest) (now : ℚ) :
    (updatedRecord old st tr now).success_count
      = old.success_count + (if st < 400 then 1 else 0) := by
  unfold updatedRecord
  cases h95 : tr.percentileAt 95 now <;> cases h99 : tr.percentileAt 99 now <;>
    by_cases h : st < 400 <;> simp [h95, h99, h]

theorem updatedRecord_error_count (old : EndpointRecord) (st : ℤ)
    (tr : RollingWindowDigest) (now : ℚ) :
    (updatedRecord old st tr now).error_count
      = old.error_count + (if st < 400 then 0 else 1) := by
  unfold updatedRecord
  cases h95 : tr.percentileAt 95 now <;> cases h99 : tr.percentileAt 99 now <;>
    by_cases h : st < 400 <;> simp [h95, h99, h]

theorem recordBody_request_counts (s : PulseMetrics) (key : String) (st : ℤ) (d now : ℚ) :
    (recordBody s key st d now).request_counts
      = aupd s.request_counts key (alookupD s.request_counts key 0 + 1) := by
  simp only [recordBody]
  by_cases h : 400 ≤ st <;> simp [h]

theorem recordBody_access_times (s : PulseMetrics) (key : String) (st : ℤ) (d now : ℚ) :
    (recordBody s key st d now).endpoint_access_times
      = aupd s.endpoint_access_times key now := by
  simp only [recordBody]
  by_cases h : 400 ≤ st <;> simp [h]

theorem recordBody_status_codes (s : PulseMetrics) (key : String) (st : ℤ) (d now : ℚ) :
    (recordBody s key st d now).status_codes
      = aupd s.status_codes key
          (aupd (alookupD s.status_codes key []) st
            (alookupD (alookupD s.status_codes key []) st 0 + 1)) := by
  simp only [recordBody]
  by_cases h : 400 ≤ st <;> simp [h]

theorem recordBody_latency_trackers (s : PulseMetrics) (key : String) (st : ℤ) (d now : ℚ) :
    (recordBody s key st d now).latency_trackers
      = aupd s.latency_trackers key
          ((alookupD s.latency_trackers key
            (RollingWindowDigest.init s.window_seconds s.bucket_seconds)).add d now) := by
  simp only [recordBody]
  by_cases h : 400 ≤ st <;> simp [h]

theorem recordBody_error_counts (s : PulseMetrics) (key : String) (st : ℤ) (d now : ℚ) :
    (recordBody s key st d now).error_counts
      = (if 400 ≤ st then aupd s.error_counts key (alookupD s.error_counts key 0 + 1)
         else s.error_counts) := by
  simp only [recordBody]
  by_cases h : 400 ≤ st <;> simp [h]

theorem recordBody_endpoint_metrics (s : PulseMetrics) (key : String) (st : ℤ) (d now : ℚ) :
    (recordBody s key st d now).endpoint_metrics
      = aupd s.endpoint_metrics key
          (updatedRecord (alookupD s.endpoint_metrics key
              (defaultEndpointRecord s.window_seconds)) st
            ((alookupD s.latency_trackers key
              (RollingWindowDigest.init s.window_seconds s.bucket_seconds)).add d now)
            now) := by
  simp only [recordBody]
  by_cases h : 400 ≤ st <;> simp [h]

theorem recordBody_max_endpoints (s : PulseMetrics) (key : String) (st : ℤ) (d now : ℚ) :
    (recordBody s key st d now).max_endpoints = s.max_endpoints := by
  simp only [recordBody]
  by_cases h : 400 ≤ st <;> simp [h]

theorem recordBody_window_seconds (s : PulseMetrics) (key : String) (st : ℤ) (d now : ℚ) :
    (recordBody s key st d now).window_seconds = s.window_seconds := by
  simp only [recordBody]
  by_cases h : 400 ≤ st <;> simp [h]

theorem recordBody_bucket_seconds (s : PulseMetrics) (key : String) (st : ℤ) (d now : ℚ) :
    (recordBody s key st d now).bucket_seconds = s.bucket_seconds := by
  simp only [recordBody]
  by_cases h : 400 ≤ st <;> simp [h]

theorem recordRequest_tracked (s : PulseMetrics) (e m : String) (st : ℤ) (d : ℚ)
    (cid : Option String) (now : ℚ)
    (h : ¬ alookup s.request_counts (m ++ " " ++ e) = none) :
    recordRequest s e m st d cid now = some (recordBody s (m ++ " " ++ e) st d now) := by
  simp [recordRequest, h]

theorem recordRequest_untracked_noevict (s : PulseMetrics) (e m : String) (st : ℤ) (d : ℚ)
    (cid : Option String) (now : ℚ)
    (h1 : alookup s.request_counts (m ++ " " ++ e) = none)
    (h2 : ¬ s.max_endpoints ≤ s.request_counts.length) :
    recordRequest s e m st d cid now = some (recordBody s (m ++ " " ++ e) st d now) := by
  simp [recordRequest, h1, h2]

theorem recordRequest_untracked_evict (s : PulseMetrics) (e m : String) (st : ℤ) (d : ℚ)
    (cid : Option String) (now : ℚ) (k0 : String) (t0 : ℚ)
    (h1 : alookup s.request_counts (m ++ " " ++ e) = none)
    (h2 : s.max_endpoints ≤ s.request_counts.length)
    (hmin : firstMinBySnd s.endpoint_access_times = some (k0, t0)) :
    recordRequest s e m st d cid now
      = some (recordBody (evictEndpoint s k0) (m ++ " " ++ e) st d now) := by
  simp [recordRequest, h1, h2, hmin]

/-- Fold a sequence of `record_request` calls to one endpoint key: each
element is `(status_code, duration_ms, now)`. -/
def recordAll (s : PulseMetrics) (endpoint method : String)
    (calls : List (ℤ × ℚ × ℚ)) : Option PulseMetrics :=
  calls.foldl
    (fun acc c => acc.bind
      (fun st => st.recordRequest endpoint method c.1 c.2.1 none c.2.2)) (some s)

/-- Fold a sequence of `record_request` calls with arbitrary endpoints:
each element is `(endpoint, method, status_code, duration_ms, now)`. Since
every call runs under the collector's single exclusive lock, an execution
by any number of parallel callers is exactly one such sequence (one
interleaving). -/
def runCalls (s : PulseMetrics) (calls : List (String × String × ℤ × ℚ × ℚ)) :
    Option PulseMetrics :=
  calls.foldl
    (fun acc c => acc.bind
      (fun st => st.recordRequest c.1 c.2.1 c.2.2.1 c.2.2.2.1 none c.2.2.2.2)) (some s)

/-- The endpoint key `"<METHOD> <endpoint>"` of a `runCalls` element. -/
def callKey (c : String × String × ℤ × ℚ × ℚ) : String := c.2.1 ++ " " ++ c.1

theorem Inv_recordBody (s : PulseMetrics) (key : String) (st : ℤ) (d now : ℚ)
    (hInv : Inv s) : Inv (recordBody s key st d now) := by
  obtain ⟨h1, h2, h3, h4, h5, h6, h7, h8⟩ := hInv
  refine ⟨?_, ?_, ?_, ?_, ?_, ?_, ?_, ?_⟩
  · rw [recordBody_request_counts]
    exact nodup_akeys_aupd _ _ _ h1
  · rw [recordBody_error_counts]
    by_cases h : 400 ≤ st
    · rw [if_pos h]
      exact nodup_akeys_aupd _ _ _ h2
    · rwa [if_neg h]
  · rw [recordBody_status_codes]
    exact nodup_akeys_aupd _ _ _ h3
  · rw [recordBody_endpoint_metrics]
    exact nodup_akeys_aupd _ _ _ h4
  · rw [recordBody_latency_trackers]
    exact nodup_akeys_aupd _ _ _ h5
  · rw [recordBody_access_times]
    exact nodup_akeys_aupd _ _ _ h6
  · intro k hk
    rw [recordBody_access_times] at hk
    rw [recordBody_request_counts]
    rw [mem_akeys_aupd] at hk
    rw [mem_akeys_aupd]
    rcases hk with hk | hk
    · exact Or.inl (h7 k hk)
    · exact Or.inr hk
  · intro k hk
    rw [recordBody_request_counts] at hk
    rw [recordBody_access_times]
    rw [mem_akeys_aupd] at hk
    rw [mem_akeys_aupd]
    rcases hk with hk | hk
    · exact Or.inl (h8 k hk)
    · exact Or.inr hk

theorem Inv_evictEndpoint (s : PulseMetrics) (k0 : String) (hInv : Inv s) :
    Inv (evictEndpoint s k0) := by
  obtain ⟨h1, h2, h3, h4, h5, h6, h7, h8⟩ := hInv
  refine ⟨nodup_akeys_aerase _ _ h1, nodup_akeys_aerase _ _ h2, nodup_akeys_aerase _ _ h3,
    nodup_akeys_aerase _ _ h4, nodup_akeys_aerase _ _ h5, nodup_akeys_aerase _ _ h6, ?_, ?_⟩
  · intro k hk
    have hne : k ≠ k0 := by
      intro he
      subst he
      exact not_mem_akeys_aerase_self _ _ h6 hk
    rw [show (evictEndpoint s k0).endpoint_access_times
      = aerase s.endpoint_access_times k0 from rfl] at hk
    rw [show (evictEndpoint s k0).request_counts = aerase s.request_counts k0 from rfl]
    rw [mem_akeys_aerase_of_ne _ _ _ hne] at hk
    rw [mem_akeys_aerase_of_ne _ _ _ hne]
    exact h7 k hk
  · intro k hk
    have hne : k ≠ k0 := by
      intro he
      subst he
      exact not_mem_akeys_aerase_self _ _ h1 hk
    rw [show (evictEndpoint s k0).request_counts = aerase s.request_counts k0 from rfl] at hk
    rw [show (evictEndpoint s k0).endpoint_access_times
      = aerase s.endpoint_access_times k0 from rfl]
    rw [mem_akeys_aerase_of_ne _ _ _ hne] at hk
    rw [mem_akeys_aerase_of_ne _ _ _ hne]
    exact h8 k hk

/-- Workhorse for `record_request` under the reachability invariant with
`max_endpoints ≥ 1`: the call always succeeds, going through an
intermediate state `s1` (either `s` itself or `s` with one key — never
the recorded key — evicted) and then the unconditional update body. All
of the recorded key's storage entries in `s1` agree with those of `s`. -/
theorem recordRequest_succeeds (s : PulseMetrics) (e m : String) (st : ℤ) (d : ℚ)
    (cid : Option String) (now : ℚ) (hInv : Inv s) (hmax : 1 ≤ s.max_endpoints) :
    ∃ s1, recordRequest s e m st d cid now
        = some (recordBody s1 (m ++ " " ++ e) st d now) ∧
      Inv s1 ∧
      s1.max_endpoints = s.max_endpoints ∧
      s1.window_seconds = s.window_seconds ∧
      s1.bucket_seconds = s.bucket_seconds ∧
      alookup s1.request_counts (m ++ " " ++ e)
        = alookup s.request_counts (m ++ " " ++ e) ∧
      alookup s1.error_counts (m ++ " " ++ e) = alookup s.error_counts (m ++ " " ++ e) ∧
      alookup s1.status_codes (m ++ " " ++ e) = alookup s.status_codes (m ++ " " ++ e) ∧
      alookup s1.endpoint_metrics (m ++ " " ++ e)
        = alookup s.endpoint_metrics (m ++ " " ++ e) ∧
      alookup s1.latency_trackers (m ++ " " ++ e)
        = alookup s.latency_trackers (m ++ " " ++ e) ∧
      alookup s1.endpoint_access_times (m ++ " " ++ e)
        = alookup s.endpoint_access_times (m ++ " " ++ e) := by
  set key := m ++ " " ++ e with hkeydef
  by_cases hkey : alookup s.request_counts key = none
  · by_cases hlen : s.max_endpoints ≤ s.request_counts.length
    · -- eviction branch
      have hrcne : s.request_counts ≠ [] := by
        intro hnil
        rw [hnil] at hlen
        simp at hlen
        omega
      have hatne : s.endpoint_access_times ≠ [] := by
        intro hnil
        obtain ⟨⟨k1, v1⟩, hk1⟩ := List.exists_mem_of_ne_nil _ hrcne
        have : k1 ∈ akeys s.request_counts := List.mem_map_of_mem Prod.fst hk1
        have := hInv.2.2.2.2.2.2.2 k1 this
        rw [hnil] at this
        simp [akeys] at this
      obtain ⟨⟨k0, t0⟩, hmin, hmem, _⟩ := firstMinBySnd_spec _ hatne
      have hk0at : k0 ∈ akeys s.endpoint_access_times := List.mem_map_of_mem Prod.fst hmem
      have hk0rc : k0 ∈ akeys s.request_counts := hInv.2.2.2.2.2.2.1 k0 hk0at
      have hk0ne : key ≠ k0 := by
        intro he
        subst he
        obtain ⟨v, hv⟩ := (mem_akeys_iff_exists _ _).mp hk0rc
        rw [hkey] at hv
        exact Option.noConfusion hv
      refine ⟨evictEndpoint s k0,
        recordRequest_untracked_evict s e m st d cid now k0 t0 hkey hlen hmin,
        Inv_evictEndpoint s k0 hInv, rfl, rfl, rfl, ?_, ?_, ?_, ?_, ?_, ?_⟩ <;>
        exact alookup_aerase_ne _ _ _ hk0ne
    · exact ⟨s, recordRequest_untracked_noevict s e m st d cid now hkey hlen,
        hInv, rfl, rfl, rfl, rfl, rfl, rfl, rfl, rfl, rfl⟩
  · exact ⟨s, recordRequest_tracked s e m st d cid now hkey,
      hInv, rfl, rfl, rfl, rfl, rfl, rfl, rfl, rfl, rfl⟩

/-- Folding `record_request` calls to one key advances that key's
endpoint-metrics counters by the number of calls, split between success
and error by the `status_code >= 400` classification. -/
theorem recordAll_spec (endpoint method : String) (calls : List (ℤ × ℚ × ℚ)) :
    ∀ s : PulseMetrics, Inv s → 1 ≤ s.max_endpoints →
    ∃ s', recordAll s endpoint method calls = some s' ∧ Inv s' ∧
      s'.max_endpoints = s.max_endpoints ∧
      s'.window_seconds = s.window_seconds ∧
      (alookupD s'.endpoint_metrics (method ++ " " ++ endpoint)
          (defaultEndpointRecord s.window_seconds)).total_requests
        = (alookupD s.endpoint_metrics (method ++ " " ++ endpoint)
            (defaultEndpointRecord s.window_seconds)).total_requests + calls.length ∧
      (alookupD s'.endpoint_metrics (method ++ " " ++ endpoint)
          (defaultEndpointRecord s.window_seconds)).success_count
        = (alookupD s.endpoint_metrics (method ++ " " ++ endpoint)
            (defaultEndpointRecord s.window_seconds)).success_count
          + (calls.filter (fun c => c.1 < 400)).length ∧
      (alookupD s'.endpoint_metrics (method ++ " " ++ endpoint)
          (defaultEndpointRecord s.window_seconds)).error_count
        = (alookupD s.endpoint_metrics (method ++ " " ++ endpoint)
            (defaultEndpointRecord s.window_seconds)).error_count
          + (calls.filter (fun c => 400 ≤ c.1)).length := by
  induction calls with
  | nil =>
    intro s hInv hmax
    exact ⟨s, rfl, hInv, rfl, rfl, by simp, by simp, by simp⟩
  | cons c rest ih =>
    intro s hInv hmax
    obtain ⟨st, d, t⟩ := c
    obtain ⟨s1, hrr, hInv1, hmax1, hw1, hb1, hrc, hec, hsc, hem, hlt, hat⟩ :=
      recordRequest_succeeds s endpoint method st d none t hInv hmax
    set key := method ++ " " ++ endpoint with hkeydef
    set s2 := recordBody s1 key st d t with hs2
    have hInv2 : Inv s2 := Inv_recordBody s1 key st d t hInv1
    have hmax2 : 1 ≤ s2.max_endpoints := by
      rw [hs2, recordBody_max_endpoints, hmax1]
      exact hmax
    have hw2 : s2.window_seconds = s.window_seconds := by
      rw [hs2, recordBody_window_seconds, hw1]
    obtain ⟨s', hrun, hInv', hmax', hw', htot, hsucc, herr⟩ := ih s2 hInv2 hmax2
    have hfold : recordAll s endpoint method ((st, d, t) :: rest)
        = recordAll s2 endpoint method rest := by
      simp only [recordAll, List.foldl_cons, Option.some_bind]
      rw [hrr]
    have hem2 : alookupD s2.endpoint_metrics key (defaultEndpointRecord s.window_seconds)
        = updatedRecord
            (alookupD s.endpoint_metrics key (defaultEndpointRecord s.window_seconds)) st
            ((alookupD s1.latency_trackers key
              (RollingWindowDigest.init s1.window_seconds s1.bucket_seconds)).add d t)
            t := by
      rw [hs2, recordBody_endpoint_metrics]
      simp only [alookupD, alookup_aupd_self, Option.getD_some]
      rw [hem, hw1]
    rw [hw2] at htot hsucc herr
    refine ⟨s', by rw [hfold]; exact hrun, hInv', ?_, ?_, ?_, ?_, ?_⟩
    · rw [hmax', hs2, recordBody_max_endpoints, hmax1]
    · rw [hw', hw2]
    · rw [htot, hem2, updatedRecord_total_requests]
      simp only [List.length_cons]
      omega
    · rw [hsucc, hem2, updatedRecord_success_count]
      simp only [List.filter_cons]
      by_cases h : st < 400
      all_goals simp [h]
      all_goals omega
    · rw [herr, hem2, updatedRecord_error_count]
      simp only [List.filter_cons]
      by_cases h : (400 : ℤ) ≤ st
      · have h' : ¬ st < 400 := not_lt.mpr h
        simp [h, h']
        omega
      · have h' : st < 400 := not_le.mp h
        simp [h, h']

/-- As long as all recorded keys stay within a nodup key universe `K`
whose size is within `max_endpoints`, no eviction ever fires and each
call adds exactly one to the grand total of per-endpoint request counts. -/
theorem runCalls_no_evict (calls : List (String × String × ℤ × ℚ × ℚ)) :
    ∀ (s : PulseMetrics) (K : List String),
    (akeys s.request_counts).Nodup →
    (∀ k ∈ akeys s.request_counts, k ∈ K) →
    K.Nodup →
    K.length ≤ s.max_endpoints →
    (∀ c ∈ calls, callKey c ∈ K) →
    ∃ s', runCalls s calls = some s' ∧
      sumVals s'.request_counts = sumVals s.request_counts + calls.length := by
  induction calls with
  | nil =>
    intro s K _ _ _ _ _
    exact ⟨s, rfl, by simp⟩
  | cons c rest ih =>
    intro s K hnd hsub hKnd hKlen hcalls
    obtain ⟨e, m, st, d, t⟩ := c
    set key := m ++ " " ++ e with hkeydef
    have hkeyK : key ∈ K := hcalls (e, m, st, d, t) (List.mem_cons_self _ _)
    have hstep : recordRequest s e m st d none t = some (recordBody s key st d t) := by
      by_cases htr : alookup s.request_counts key = none
      · have hnotfull : ¬ s.max_endpoints ≤ s.request_counts.length := by
          have hkeynot : ¬ key ∈ akeys s.request_counts := by
            intro hmem
            obtain ⟨v, hv⟩ := (mem_akeys_iff_exists _ _).mp hmem
            rw [htr] at hv
            exact Option.noConfusion hv
          have hnodup : (key :: akeys s.request_counts).Nodup := by
            simp [List.nodup_cons, hkeynot, hnd]
          have hsubK : (key :: akeys s.request_counts) ⊆ K := by
            intro x hx
            rcases List.mem_cons.mp hx with hx | hx
            · rw [hx]; exact hkeyK
            · exact hsub x hx
          have hle : (key :: akeys s.request_counts).length ≤ K.length :=
            (hnodup.subperm hsubK).length_le
          have hlen_eq : (akeys s.request_counts).length = s.request_counts.length := by
            simp [akeys]
          simp only [List.length_cons] at hle
          omega
        exact recordRequest_untracked_noevict s e m st d none t htr hnotfull
      · exact recordRequest_tracked s e m st d none t htr
    set s2 := recordBody s key st d t with hs2
    have hrc2 : s2.request_counts
        = aupd s.request_counts key (alookupD s.request_counts key 0 + 1) := by
      rw [hs2, recordBody_request_counts]
    have hnd2 : (akeys s2.request_counts).Nodup := by
      rw [hrc2]
      exact nodup_akeys_aupd _ _ _ hnd
    have hsub2 : ∀ k ∈ akeys s2.request_counts, k ∈ K := by
      intro k hk
      rw [hrc2, mem_akeys_aupd] at hk
      rcases hk with hk | hk
      · exact hsub k hk
      · rw [hk]; exact hkeyK
    have hKlen2 : K.length ≤ s2.max_endpoints := by
      rw [hs2, recordBody_max_endpoints]
      exact hKlen
    have hcalls2 : ∀ c ∈ rest, callKey c ∈ K := by
      intro c hc
      exact hcalls c (List.mem_cons_of_mem _ hc)
    obtain ⟨s', hrun, hsum⟩ := ih s2 K hnd2 hsub2 hKnd hKlen2 hcalls2
    have hfold : runCalls s ((e, m, st, d, t) :: rest) = runCalls s2 rest := by
      simp only [runCalls, List.foldl_cons, Option.some_bind]
      rw [hstep]
    refine ⟨s', by rw [hfold]; exact hrun, ?_⟩
    rw [hsum, hrc2, sumVals_aupd_incr]
    simp only [List.length_cons]
    omega

/-- Splitting the calls by the success/error classification is exhaustive. -/
theorem filter_length_split (calls : List (ℤ × ℚ × ℚ)) :
    (calls.filter (fun c => c.1 < 400)).length
      + (calls.filter (fun c => 400 ≤ c.1)).length = calls.length := by
  induction calls with
  | nil => simp
  | cons c rest ih =>
    simp only [List.filter_cons, List.length_cons]
    by_cases h : c.1 < 400
    · have h' : ¬ (400 : ℤ) ≤ c.1 := not_le.mpr h
      simp [h, h']
      omega
    · have h' : (400 : ℤ) ≤ c.1 := not_lt.mp h
      simp [h, h']
      omega

end PulseMetrics

/-! ### Claim C3 -/

/-- Claim C3 counterexample: the claim as stated is false. One `add(1, 100)`
call on a default digest (window 300s, bucket 60s) with query time 399:
the timestamp 100 lies within one window of the query time
(`399 - 300 ≤ 100 ≤ 399`), yet `count()` is 0 (not 1) and `total()` is 0
(not 1), because the sample's bucket is aligned down to start 60, which is
older than the cutoff `399 - 300 = 99` and is therefore trimmed. -/
theorem claim_C3_counterexample :
    ((RollingWindowDigest.init 300 60).add 1 100).countAt 399 = 0 ∧
    ((RollingWindowDigest.init 300 60).add 1 100).totalAt 399 = 0 ∧
    ((399 : ℚ) - 300 ≤ 100 ∧ (100 : ℚ) ≤ 399) := by
  refine ⟨?_, ?_, by norm_num, by norm_num⟩ <;>
    norm_num [RollingWindowDigest.init, RollingWindowDigest.add, RollingWindowDigest.trim,
      RollingWindowDigest.trimGo, RollingWindowDigest.alignedStart, RollingWindowDigest.countAt,
      RollingWindowDigest.totalAt, RollingWindowDigest.addToBuckets]

/-- Claim C3 (amended): for every sequence of `add(v, t)` calls whose
bucket-aligned start times (`floor(t / bucket_seconds) * bucket_seconds`)
all lie within one window of the query time and of every other add's
timestamp, `count()` equals the number of `add` calls made and `total()`
equals the exact sum of the added values (exact on the `ℚ` model, i.e. to
floating-point tolerance), independent of the sketch's compression (the
sums are recomputed from the plain per-bucket counts and totals, never
from the sketch). -/
theorem claim_C3_count_total (w bs : ℤ) (pairs : List (ℚ × ℚ)) (now : ℚ)
    (h1 : ∀ t ∈ pairs.map Prod.snd,
      now - (w : ℚ) ≤ RollingWindowDigest.alignedStart
        (RollingWindowDigest.init w bs).bucket_seconds t)
    (h2 : ∀ t ∈ pairs.map Prod.snd, ∀ t' ∈ pairs.map Prod.snd,
      t' - (w : ℚ) ≤ RollingWindowDigest.alignedStart
        (RollingWindowDigest.init w bs).bucket_seconds t) :
    (RollingWindowDigest.addAll (RollingWindowDigest.init w bs) pairs).countAt now
      = pairs.length ∧
    (RollingWindowDigest.addAll (RollingWindowDigest.init w bs) pairs).totalAt now
      = (pairs.map Prod.fst).sum := by
  set S0 := RollingWindowDigest.init w bs with hS0
  have hwin : S0.window_seconds = w := rfl
  obtain ⟨ha, hc, ht⟩ := RollingWindowDigest.addAll_exact pairs (now :: pairs.map Prod.snd) S0
    (by intro b hb; simp [hS0, RollingWindowDigest.init] at hb)
    (by
      intro t htm t' ht'
      rcases List.mem_cons.mp ht' with h | h
      · subst h
        exact h1 t htm
      · exact h2 t htm t' h)
    (by intro t htm; exact List.mem_cons_of_mem _ htm)
  have hA := RollingWindowDigest.addAll_window_seconds pairs S0
  have hnotrim : ∀ b ∈ (RollingWindowDigest.addAll S0 pairs).buckets,
      ¬ b.start < now - ((RollingWindowDigest.addAll S0 pairs).window_seconds : ℚ) := by
    intro b hb
    have := ha b hb now (List.mem_cons_self _ _)
    rw [hwin] at this
    rw [hA, hwin]
    linarith
  have htrim : ((RollingWindowDigest.addAll S0 pairs).trim now).buckets
      = (RollingWindowDigest.addAll S0 pairs).buckets := by
    simp only [RollingWindowDigest.trim]
    exact RollingWindowDigest.trimGo_eq_self _ _ hnotrim
  constructor
  · simp only [RollingWindowDigest.countAt]
    rw [htrim]
    have hc0 : RollingWindowDigest.sumCounts S0.buckets = 0 := rfl
    rw [show (((RollingWindowDigest.addAll S0 pairs).buckets).map
      DigestBucket.count).sum = RollingWindowDigest.sumCounts
        (RollingWindowDigest.addAll S0 pairs).buckets from rfl, hc, hc0]
    omega
  · simp only [RollingWindowDigest.totalAt]
    rw [htrim]
    have ht0 : RollingWindowDigest.sumTotals S0.buckets = 0 := rfl
    rw [show (((RollingWindowDigest.addAll S0 pairs).buckets).map
      DigestBucket.total).sum = RollingWindowDigest.sumTotals
        (RollingWindowDigest.addAll S0 pairs).buckets from rfl, ht, ht0]
    ring

/-- Claim C3 witness: two adds at timestamps 100 and 130 on a default
300s/60s digest, queried at time 150, give count 2 and total 12. -/
theorem claim_C3_count_total_witness :
    (RollingWindowDigest.addAll (RollingWindowDigest.init 300 60)
      [(5, 100), (7, 130)]).countAt 150 = 2 ∧
    (RollingWindowDigest.addAll (RollingWindowDigest.init 300 60)
      [(5, 100), (7, 130)]).totalAt 150 = 12 := by
  have h := claim_C3_count_total 300 60 [(5, 100), (7, 130)] 150
    (by
      intro t htm
      simp only [List.map_cons, List.map_nil, List.mem_cons, List.not_mem_nil, or_false] at htm
      rcases htm with h | h <;> subst h <;>
        norm_num [RollingWindowDigest.alignedStart, RollingWindowDigest.init])
    (by
      intro t htm t' htm'
      simp only [List.map_cons, List.map_nil, List.mem_cons, List.not_mem_nil, or_false] at htm htm'
      rcases htm with h | h <;> rcases htm' with h' | h' <;> subst h <;> subst h' <;>
        norm_num [RollingWindowDigest.alignedStart, RollingWindowDigest.init])
  obtain ⟨hc, ht⟩ := h
  refine ⟨by simpa using hc, ?_⟩
  simp only [List.map_cons, List.map_nil, List.sum_cons, List.sum_nil] at ht
  rw [ht]
  norm_num

/-! ### Claim C6 -/

/-- Claim C6 counterexample: the claim as stated (for "arbitrary
timestamps") is false. Adding at timestamp 1000 and then at timestamp 10
on a default 300s/60s digest leaves the bucket series with start times
`[960, 0]`, which is not in temporal order: the `add` path only trims the
front and compares the aligned start against the last bucket, so an
out-of-order timestamp appends an older bucket after a newer one. -/
theorem claim_C6_counterexample :
    (((RollingWindowDigest.addAll (RollingWindowDigest.init 300 60)
      [(1, 1000), (2, 10)]).buckets).map DigestBucket.start = [960, 0]) ∧
    ¬ ((960 : ℚ) ≤ 0) := by
  constructor
  · norm_num [RollingWindowDigest.addAll, RollingWindowDigest.init, RollingWindowDigest.add,
      RollingWindowDigest.trim, RollingWindowDigest.trimGo, RollingWindowDigest.alignedStart,
      RollingWindowDigest.addToBuckets]
  · norm_num

/-- Claim C6 (amended): for every sequence of `add` calls with
non-decreasing timestamps (the source assumes values in roughly
time-ascending order and checks only the last bucket; out-of-order
timestamps refute the original claim) and for every window and bucket
configuration, (i) the bucket series remains in temporal order: the
start times are strictly increasing from oldest to newest; (ii) dropped
data never revives: samples are physically removed, so after any prefix
of the calls, the samples read by any later query — at any query time —
form a sub-list of the samples still live after that prefix followed by
the values added by the remaining calls; (iii) every
`count`/`total`/`mean`/`percentile` result is computed from exactly
those read samples: `count` is their number, `total` their sum (and
`mean`/`percentile` read the same trimmed live buckets by definition). -/
theorem claim_C6_temporal_order (w bs : ℤ) (pairs : List (ℚ × ℚ))
    (hchain : List.Chain' (· ≤ ·) (pairs.map Prod.snd)) :
    ((((RollingWindowDigest.addAll (RollingWindowDigest.init w bs) pairs).buckets).map
        DigestBucket.start).Pairwise (· < ·)) ∧
    (∀ p q, pairs = p ++ q → ∀ now,
      List.Sublist
        ((RollingWindowDigest.addAll (RollingWindowDigest.init w bs) pairs).mergedSamples
          now)
        ((((RollingWindowDigest.addAll (RollingWindowDigest.init w bs) p).buckets).map
            DigestBucket.samples).flatten ++ q.map Prod.fst)) ∧
    (∀ now,
      (RollingWindowDigest.addAll (RollingWindowDigest.init w bs) pairs).countAt now
        = ((RollingWindowDigest.addAll (RollingWindowDigest.init w bs)
            pairs).mergedSamples now).length ∧
      (RollingWindowDigest.addAll (RollingWindowDigest.init w bs) pairs).totalAt now
        = ((RollingWindowDigest.addAll (RollingWindowDigest.init w bs)
            pairs).mergedSamples now).sum) := by
  set S0 := RollingWindowDigest.init w bs with hS0
  have hbs1 : 1 ≤ S0.bucket_seconds := le_max_left 1 bs
  have hpairwise : (((RollingWindowDigest.addAll S0 pairs).buckets).map
      DigestBucket.start).Pairwise (· < ·) := by
    cases pairs with
    | nil => simp [RollingWindowDigest.addAll, hS0, RollingWindowDigest.init]
    | cons pr0 rest0 =>
      obtain ⟨v1, t1⟩ := pr0
      have hchain0 : List.Chain' (· ≤ ·) (t1 :: ((v1, t1) :: rest0).map Prod.snd) := by
        simp only [List.map_cons, List.chain'_cons]
        exact ⟨le_refl t1, by simpa using hchain⟩
      exact (RollingWindowDigest.addAll_pairwise_inv ((v1, t1) :: rest0) S0 t1 hbs1 hchain0
        (by refine ⟨?_, ?_⟩ <;> simp [hS0, RollingWindowDigest.init])).1
  refine ⟨hpairwise, ?_, ?_⟩
  · intro p q hsplit now
    have h1 : RollingWindowDigest.addAll S0 pairs
        = RollingWindowDigest.addAll (RollingWindowDigest.addAll S0 p) q := by
      rw [hsplit, RollingWindowDigest.addAll_append]
    have h2 : List.Sublist
        ((RollingWindowDigest.addAll S0 pairs).mergedSamples now)
        ((((RollingWindowDigest.addAll S0 pairs).buckets).map
          DigestBucket.samples).flatten) :=
      RollingWindowDigest.flatten_samples_trimGo _ _
    have h3 := RollingWindowDigest.flatten_samples_addAll q (RollingWindowDigest.addAll S0 p)
    rw [← h1] at h3
    exact h2.trans h3
  · intro now
    have hwfall : ∀ b ∈ (RollingWindowDigest.addAll S0 pairs).buckets,
        b.count = b.samples.length ∧ b.total = b.samples.sum :=
      RollingWindowDigest.wf_addAll pairs S0 (by simp [hS0, RollingWindowDigest.init])
    have hwftrim : ∀ b ∈ ((RollingWindowDigest.addAll S0 pairs).trim now).buckets,
        b.count = b.samples.length ∧ b.total = b.samples.sum :=
      fun b hb => hwfall b ((RollingWindowDigest.trimGo_sublist _ _).mem hb)
    constructor
    · have := length_flatten_samples ((RollingWindowDigest.addAll S0 pairs).trim now).buckets
        (fun b hb => (hwftrim b hb).1)
      simpa [RollingWindowDigest.mergedSamples, RollingWindowDigest.countAt,
        RollingWindowDigest.sumCounts] using this.symm
    · have := sum_flatten_samples ((RollingWindowDigest.addAll S0 pairs).trim now).buckets
        (fun b hb => (hwftrim b hb).2)
      simpa [RollingWindowDigest.mergedSamples, RollingWindowDigest.totalAt,
        RollingWindowDigest.sumTotals] using this.symm

/-- Claim C6 witness: two in-order adds on a default 300s/60s digest. -/
theorem claim_C6_temporal_order_witness :
    ((((RollingWindowDigest.addAll (RollingWindowDigest.init 300 60)
        [(1, 10), (2, 100)]).buckets).map DigestBucket.start).Pairwise (· < ·)) ∧
    (∀ p q, ([(1, 10), (2, 100)] : List (ℚ × ℚ)) = p ++ q → ∀ now,
      List.Sublist
        ((RollingWindowDigest.addAll (RollingWindowDigest.init 300 60)
          [(1, 10), (2, 100)]).mergedSamples now)
        ((((RollingWindowDigest.addAll (RollingWindowDigest.init 300 60) p).buckets).map
            DigestBucket.samples).flatten ++ q.map Prod.fst)) ∧
    (∀ now,
      (RollingWindowDigest.addAll (RollingWindowDigest.init 300 60)
          [(1, 10), (2, 100)]).countAt now
        = ((RollingWindowDigest.addAll (RollingWindowDigest.init 300 60)
            [(1, 10), (2, 100)]).mergedSamples now).length ∧
      (RollingWindowDigest.addAll (RollingWindowDigest.init 300 60)
          [(1, 10), (2, 100)]).totalAt now
        = ((RollingWindowDigest.addAll (RollingWindowDigest.init 300 60)
            [(1, 10), (2, 100)]).mergedSamples now).sum) :=
  claim_C6_temporal_order 300 60 [(1, 10), (2, 100)]
    (by
      simp only [List.map_cons, List.map_nil, List.chain'_cons, List.chain'_singleton,
        and_true]
      norm_num)

/-! ### Claim C4 -/

/-- Claim C4: `percentile(p)` (for the library's documented domain
`0 ≤ p ≤ 100`, per the source docstring "Return the requested percentile
(0-100)") returns `None` if and only if fewer than 2 samples are currently
in-window; with at least 2 in-window samples it returns a number lying
within `[min(window values), max(window values)]`. Stated for every digest
state whose buckets are well formed (each bucket's count equals its
sketch's sample count, as maintained by `add`). -/
theorem claim_C4_percentile (d : RollingWindowDigest) (p now : ℚ)
    (hwf : ∀ b ∈ d.buckets, b.count = b.samples.length)
    (hp0 : 0 ≤ p) (hp1 : p ≤ 100) :
    (d.percentileAt p now = none ↔ d.countAt now < 2) ∧
    (∀ x, d.percentileAt p now = some x →
      ∃ m M, listMin (d.mergedSamples now) = some m ∧
        listMax (d.mergedSamples now) = some M ∧ m ≤ x ∧ x ≤ M) := by
  have hwf' : ∀ b ∈ (d.trim now).buckets, b.count = b.samples.length := by
    intro b hb
    have hb' : b ∈ d.buckets := (RollingWindowDigest.trimGo_sublist _ _).mem hb
    exact hwf b hb'
  have hlen : (d.mergedSamples now).length = d.countAt now := by
    have := length_flatten_samples (d.trim now).buckets hwf'
    simpa [RollingWindowDigest.mergedSamples, RollingWindowDigest.countAt,
      RollingWindowDigest.sumCounts] using this
  have hdef : d.percentileAt p now
      = (if d.countAt now < 2 then none
         else if (d.mergedSamples now).length < 2 then none
         else some (RollingWindowDigest.interpPercentile p (d.mergedSamples now))) := rfl
  by_cases hc : d.countAt now < 2
  · rw [hdef, if_pos hc]
    refine ⟨by simp [hc], ?_⟩
    intro x hx
    simp at hx
  · have hlen2 : ¬ (d.mergedSamples now).length < 2 := by
      rw [hlen]
      exact hc
    rw [hdef, if_neg hc, if_neg hlen2]
    refine ⟨by simp [hc], ?_⟩
    intro x hx
    have hx' : x = RollingWindowDigest.interpPercentile p (d.mergedSamples now) :=
      (Option.some_inj.mp hx).symm
    have hlenge : 2 ≤ (d.mergedSamples now).length := by omega
    have hne : d.mergedSamples now ≠ [] := by
      intro hnil
      rw [hnil] at hlenge
      simp at hlenge
    obtain ⟨m, hm⟩ := listMin_isSome _ hne
    obtain ⟨M, hM⟩ := listMax_isSome _ hne
    obtain ⟨h1, h2⟩ := interpPercentile_bounds p (d.mergedSamples now) m M hlenge hp0 hp1 hm hM
    exact ⟨m, M, hm, hM, by rw [hx']; exact h1, by rw [hx']; exact h2⟩

/-- Claim C4 witness: a digest holding one bucket with samples
`[10, 20]`, queried with `p = 95` at time 10. -/
theorem claim_C4_percentile_witness :
    ((⟨300, 60, [⟨0, [10, 20], 2, 30⟩]⟩ : RollingWindowDigest).percentileAt 95 10 = none
        ↔ (⟨300, 60, [⟨0, [10, 20], 2, 30⟩]⟩ : RollingWindowDigest).countAt 10 < 2) ∧
      (∀ x, (⟨300, 60, [⟨0, [10, 20], 2, 30⟩]⟩ : RollingWindowDigest).percentileAt 95 10
          = some x →
        ∃ m M, listMin ((⟨300, 60, [⟨0, [10, 20], 2, 30⟩]⟩ :
            RollingWindowDigest).mergedSamples 10) = some m ∧
          listMax ((⟨300, 60, [⟨0, [10, 20], 2, 30⟩]⟩ :
            RollingWindowDigest).mergedSamples 10) = some M ∧ m ≤ x ∧ x ≤ M) :=
  claim_C4_percentile ⟨300, 60, [⟨0, [10, 20], 2, 30⟩]⟩ 95 10
    (by
      intro b hb
      rw [List.mem_singleton] at hb
      subst hb
      rfl)
    (by norm_num) (by norm_num)

/-! ### Claim C1 -/

/-- Claim C1: on every collector state satisfying the reachability
invariant and configured with `max_endpoints ≥ 1`, `record_request`
returns normally for every argument tuple whatsoever — empty or unicode
endpoint, any method, any integer status code (also out of range), any
duration (also negative), any correlation id (accepted and unused by the
source) — and the arguments are recorded as given with no validation: the
key's request count rises by one, the histogram cell of the given status
code rises by one, the access time becomes the call time, the endpoint
record's total rises by one, and the given duration is stored in the
key's latency tracker. -/
theorem claim_C1_record_request (s : PulseMetrics) (endpoint method : String)
    (status_code : ℤ) (duration_ms : ℚ) (correlation_id : Option String) (now : ℚ)
    (hInv : PulseMetrics.Inv s) (hmax : 1 ≤ s.max_endpoints) :
    ∃ s', s.recordRequest endpoint method status_code duration_ms correlation_id now
        = some s' ∧
      alookupD s'.request_counts (method ++ " " ++ endpoint) 0
        = alookupD s.request_counts (method ++ " " ++ endpoint) 0 + 1 ∧
      alookupD (alookupD s'.status_codes (method ++ " " ++ endpoint) []) status_code 0
        = alookupD (alookupD s.status_codes (method ++ " " ++ endpoint) [])
            status_code 0 + 1 ∧
      alookup s'.endpoint_access_times (method ++ " " ++ endpoint) = some now ∧
      (alookupD s'.endpoint_metrics (method ++ " " ++ endpoint)
          (defaultEndpointRecord s.window_seconds)).total_requests
        = (alookupD s.endpoint_metrics (method ++ " " ++ endpoint)
            (defaultEndpointRecord s.window_seconds)).total_requests + 1 ∧
      ∃ tr, alookup s'.latency_trackers (method ++ " " ++ endpoint) = some tr ∧
        duration_ms ∈ ((tr.buckets).map DigestBucket.samples).flatten := by
  obtain ⟨s1, hrr, _, _, hw, hb, hrc, hec, hsc, hem, hlt, hat⟩ :=
    PulseMetrics.recordRequest_succeeds s endpoint method status_code duration_ms
      correlation_id now hInv hmax
  refine ⟨_, hrr, ?_, ?_, ?_, ?_, ?_⟩
  · rw [PulseMetrics.recordBody_request_counts]
    simp [alookupD, alookup_aupd_self, hrc]
  · rw [PulseMetrics.recordBody_status_codes]
    simp [alookupD, alookup_aupd_self, hsc]
  · rw [PulseMetrics.recordBody_access_times]
    exact alookup_aupd_self _ _ _
  · rw [PulseMetrics.recordBody_endpoint_metrics]
    simp only [alookupD, alookup_aupd_self, Option.getD_some]
    rw [PulseMetrics.updatedRecord_total_requests]
    rw [hem, hw]
  · rw [PulseMetrics.recordBody_latency_trackers]
    exact ⟨_, alookup_aupd_self _ _ _, RollingWindowDigest.mem_samples_add _ _ _⟩

/-- Claim C1 witness: a fresh collector with `max_endpoints = 1`, an
empty endpoint path, a unicode method, a negative out-of-range status
code and a negative duration. -/
theorem claim_C1_record_request_witness :
    ∃ s', (PulseMetrics.init 1000 300 60 1).recordRequest "" "δμ" (-7) (-5)
        (some "cid") 0 = some s' ∧
      alookupD s'.request_counts ("δμ" ++ " " ++ "") 0
        = alookupD (PulseMetrics.init 1000 300 60 1).request_counts ("δμ" ++ " " ++ "") 0
            + 1 ∧
      alookupD (alookupD s'.status_codes ("δμ" ++ " " ++ "") []) (-7) 0
        = alookupD (alookupD (PulseMetrics.init 1000 300 60 1).status_codes
            ("δμ" ++ " " ++ "") []) (-7) 0 + 1 ∧
      alookup s'.endpoint_access_times ("δμ" ++ " " ++ "") = some 0 ∧
      (alookupD s'.endpoint_metrics ("δμ" ++ " " ++ "")
          (defaultEndpointRecord
            (PulseMetrics.init 1000 300 60 1).window_seconds)).total_requests
        = (alookupD (PulseMetrics.init 1000 300 60 1).endpoint_metrics ("δμ" ++ " " ++ "")
            (defaultEndpointRecord
              (PulseMetrics.init 1000 300 60 1).window_seconds)).total_requests + 1 ∧
      ∃ tr, alookup s'.latency_trackers ("δμ" ++ " " ++ "") = some tr ∧
        (-5 : ℚ) ∈ ((tr.buckets).map DigestBucket.samples).flatten :=
  claim_C1_record_request (PulseMetrics.init 1000 300 60 1) "" "δμ" (-7) (-5)
    (some "cid") 0 (by decide) (by decide)

/-! ### Claim C10 -/

/-- Claim C10: a `record_request` call whose endpoint key is already
tracked never evicts: the tracked key set is unchanged (as a list, so
also as a set), and every keyed storage entry of every other endpoint is
left exactly as it was. -/
theorem claim_C10_no_evict_frame (s : PulseMetrics) (endpoint method : String)
    (status_code : ℤ) (duration_ms : ℚ) (correlation_id : Option String) (now : ℚ)
    (htracked : ¬ alookup s.request_counts (method ++ " " ++ endpoint) = none) :
    ∃ s', s.recordRequest endpoint method status_code duration_ms correlation_id now
        = some s' ∧
      akeys s'.request_counts = akeys s.request_counts ∧
      ∀ j, j ≠ method ++ " " ++ endpoint →
        alookup s'.request_counts j = alookup s.request_counts j ∧
        alookup s'.error_counts j = alookup s.error_counts j ∧
        alookup s'.status_codes j = alookup s.status_codes j ∧
        alookup s'.endpoint_metrics j = alookup s.endpoint_metrics j ∧
        alookup s'.latency_trackers j = alookup s.latency_trackers j ∧
        alookup s'.endpoint_access_times j = alookup s.endpoint_access_times j := by
  set key := method ++ " " ++ endpoint with hkeydef
  have hmem : key ∈ akeys s.request_counts := by
    cases hx : alookup s.request_counts key with
    | none => exact absurd hx htracked
    | some v => exact mem_akeys_of_alookup _ _ _ hx
  refine ⟨_, PulseMetrics.recordRequest_tracked s endpoint method status_code duration_ms
    correlation_id now htracked, ?_, ?_⟩
  · rw [PulseMetrics.recordBody_request_counts]
    exact akeys_aupd_of_mem _ _ _ hmem
  · intro j hj
    refine ⟨?_, ?_, ?_, ?_, ?_, ?_⟩
    · rw [PulseMetrics.recordBody_request_counts]
      exact alookup_aupd_ne _ _ _ _ hj
    · rw [PulseMetrics.recordBody_error_counts]
      by_cases h : (400 : ℤ) ≤ status_code
      · rw [if_pos h]
        exact alookup_aupd_ne _ _ _ _ hj
      · rw [if_neg h]
    · rw [PulseMetrics.recordBody_status_codes]
      exact alookup_aupd_ne _ _ _ _ hj
    · rw [PulseMetrics.recordBody_endpoint_metrics]
      exact alookup_aupd_ne _ _ _ _ hj
    · rw [PulseMetrics.recordBody_latency_trackers]
      exact alookup_aupd_ne _ _ _ _ hj
    · rw [PulseMetrics.recordBody_access_times]
      exact alookup_aupd_ne _ _ _ _ hj

/-- Claim C10 witness: a collector already tracking `GET /a` receives
another `GET /a` request. -/
theorem claim_C10_no_evict_frame_witness :
    ∃ s', (PulseMetrics.recordRequest
        { max_samples := 1000, window_seconds := 300, bucket_seconds := 60
          max_endpoints := 1
          request_counts := [("GET /a", 1)]
          error_counts := []
          status_codes := [("GET /a", [(200, 1)])]
          endpoint_metrics := [("GET /a", defaultEndpointRecord 300)]
          latency_trackers := [("GET /a", RollingWindowDigest.init 300 60)]
          global_latency := RollingWindowDigest.init 300 60
          endpoint_access_times := [("GET /a", 5)] } "/a" "GET" 200 3 none 6)
        = some s' ∧
      akeys s'.request_counts = akeys ([("GET /a", 1)] : List (String × ℕ)) ∧
      ∀ j, j ≠ "GET" ++ " " ++ "/a" →
        alookup s'.request_counts j = alookup ([("GET /a", 1)] : List (String × ℕ)) j ∧
        alookup s'.error_counts j = alookup ([] : List (String × ℕ)) j ∧
        alookup s'.status_codes j
          = alookup ([("GET /a", [(200, 1)])] : List (String × List (ℤ × ℕ))) j ∧
        alookup s'.endpoint_metrics j
          = alookup [("GET /a", defaultEndpointRecord 300)] j ∧
        alookup s'.latency_trackers j
          = alookup [("GET /a", RollingWindowDigest.init 300 60)] j ∧
        alookup s'.endpoint_access_times j
          = alookup ([("GET /a", 5)] : List (String × ℚ)) j :=
  claim_C10_no_evict_frame
    { max_samples := 1000, window_seconds := 300, bucket_seconds := 60
      max_endpoints := 1
      request_counts := [("GET /a", 1)]
      error_counts := []
      status_codes := [("GET /a", [(200, 1)])]
      endpoint_metrics := [("GET /a", defaultEndpointRecord 300)]
      latency_trackers := [("GET /a", RollingWindowDigest.init 300 60)]
      global_latency := RollingWindowDigest.init 300 60
      endpoint_access_times := [("GET /a", 5)] } "/a" "GET" 200 3 none 6
    (by decide)

/-! ### Claim C2 -/

/-- Claim C2 counterexample: the claim presupposes that an eviction (and
the insertion of the new key) happens whenever the tracked key count
equals the configured maximum, but with `max_endpoints = 0` the tracked
count (0) equals the maximum while `record_request` raises instead
(`min()` over the empty access-time dict raises `ValueError`, `none`
here): no state results, nothing is evicted or inserted. -/
theorem claim_C2_counterexample :
    (PulseMetrics.init 1000 300 60 0).recordRequest "/a" "GET" 200 1 none 0 = none ∧
    (PulseMetrics.init 1000 300 60 0).request_counts.length
      = (PulseMetrics.init 1000 300 60 0).max_endpoints := by
  constructor
  · rfl
  · rfl

/-- Claim C2 (amended): on every invariant-satisfying state whose tracked
key count equals the configured maximum, with the maximum at least 1, a
`record_request` call for a not-yet-tracked key evicts exactly one
existing key `k0` whose last-access timestamp is minimal (the source
breaks ties by first position in dict order): afterwards `k0` is absent
from all six storage structures — request counts, error counts,
status-code histogram, endpoint metrics, latency trackers and the
access-time map — and every key other than `k0` and the newly recorded
key keeps all six of its entries unchanged. -/
theorem claim_C2_lru_eviction (s : PulseMetrics) (endpoint method : String)
    (status_code : ℤ) (duration_ms : ℚ) (correlation_id : Option String) (now : ℚ)
    (hInv : PulseMetrics.Inv s)
    (hfull : s.request_counts.length = s.max_endpoints)
    (hmax : 1 ≤ s.max_endpoints)
    (hnew : alookup s.request_counts (method ++ " " ++ endpoint) = none) :
    ∃ s' k0 t0,
      s.recordRequest endpoint method status_code duration_ms correlation_id now
        = some s' ∧
      alookup s.endpoint_access_times k0 = some t0 ∧
      (∀ p ∈ s.endpoint_access_times, t0 ≤ p.2) ∧
      k0 ≠ method ++ " " ++ endpoint ∧
      alookup s'.request_counts k0 = none ∧
      alookup s'.error_counts k0 = none ∧
      alookup s'.status_codes k0 = none ∧
      alookup s'.endpoint_metrics k0 = none ∧
      alookup s'.latency_trackers k0 = none ∧
      alookup s'.endpoint_access_times k0 = none ∧
      (∀ j, j ≠ k0 → j ≠ method ++ " " ++ endpoint →
        alookup s'.request_counts j = alookup s.request_counts j ∧
        alookup s'.error_counts j = alookup s.error_counts j ∧
        alookup s'.status_codes j = alookup s.status_codes j ∧
        alookup s'.endpoint_metrics j = alookup s.endpoint_metrics j ∧
        alookup s'.latency_trackers j = alookup s.latency_trackers j ∧
        alookup s'.endpoint_access_times j = alookup s.endpoint_access_times j) := by
  obtain ⟨hnd1, hnd2, hnd3, hnd4, hnd5, hnd6, hsub1, hsub2⟩ := hInv
  set key := method ++ " " ++ endpoint with hkeydef
  have hlen : s.max_endpoints ≤ s.request_counts.length := le_of_eq hfull.symm
  have hrcne : s.request_counts ≠ [] := by
    intro hnil
    rw [hnil] at hfull
    simp at hfull
    omega
  have hatne : s.endpoint_access_times ≠ [] := by
    intro hnil
    obtain ⟨⟨k1, v1⟩, hk1⟩ := List.exists_mem_of_ne_nil _ hrcne
    have := hsub2 k1 (List.mem_map_of_mem Prod.fst hk1)
    rw [hnil] at this
    simp [akeys] at this
  obtain ⟨⟨k0, t0⟩, hmin, hmem, hminval⟩ := firstMinBySnd_spec _ hatne
  have hk0at : k0 ∈ akeys s.endpoint_access_times := List.mem_map_of_mem Prod.fst hmem
  have hk0rc : k0 ∈ akeys s.request_counts := hsub1 k0 hk0at
  have hk0ne : k0 ≠ key := by
    intro he
    obtain ⟨v, hv⟩ := (mem_akeys_iff_exists _ _).mp hk0rc
    rw [he, hnew] at hv
    exact Option.noConfusion hv
  have hkeyne : key ≠ k0 := fun h => hk0ne h.symm
  refine ⟨_, k0, t0,
    PulseMetrics.recordRequest_untracked_evict s endpoint method status_code duration_ms
      correlation_id now k0 t0 hnew hlen hmin,
    alookup_of_mem_nodup _ _ _ hmem hnd6, hminval, hk0ne, ?_, ?_, ?_, ?_, ?_, ?_, ?_⟩
  · rw [PulseMetrics.recordBody_request_counts, alookup_aupd_ne _ _ _ _ hk0ne]
    exact alookup_aerase_self _ _ hnd1
  · rw [PulseMetrics.recordBody_error_counts]
    by_cases h : (400 : ℤ) ≤ status_code
    · rw [if_pos h, alookup_aupd_ne _ _ _ _ hk0ne]
      exact alookup_aerase_self _ _ hnd2
    · rw [if_neg h]
      exact alookup_aerase_self _ _ hnd2
  · rw [PulseMetrics.recordBody_status_codes, alookup_aupd_ne _ _ _ _ hk0ne]
    exact alookup_aerase_self _ _ hnd3
  · rw [PulseMetrics.recordBody_endpoint_metrics, alookup_aupd_ne _ _ _ _ hk0ne]
    exact alookup_aerase_self _ _ hnd4
  · rw [PulseMetrics.recordBody_latency_trackers, alookup_aupd_ne _ _ _ _ hk0ne]
    exact alookup_aerase_self _ _ hnd5
  · rw [PulseMetrics.recordBody_access_times, alookup_aupd_ne _ _ _ _ hk0ne]
    exact alookup_aerase_self _ _ hnd6
  · intro j hj0 hjkey
    refine ⟨?_, ?_, ?_, ?_, ?_, ?_⟩
    · rw [PulseMetrics.recordBody_request_counts, alookup_aupd_ne _ _ _ _ hjkey]
      exact alookup_aerase_ne _ _ _ hj0
    · rw [PulseMetrics.recordBody_error_counts]
      by_cases h : (400 : ℤ) ≤ status_code
      · rw [if_pos h, alookup_aupd_ne _ _ _ _ hjkey]
        exact alookup_aerase_ne _ _ _ hj0
      · rw [if_neg h]
        exact alookup_aerase_ne _ _ _ hj0
    · rw [PulseMetrics.recordBody_status_codes, alookup_aupd_ne _ _ _ _ hjkey]
      exact alookup_aerase_ne _ _ _ hj0
    · rw [PulseMetrics.recordBody_endpoint_metrics, alookup_aupd_ne _ _ _ _ hjkey]
      exact alookup_aerase_ne _ _ _ hj0
    · rw [PulseMetrics.recordBody_latency_trackers, alookup_aupd_ne _ _ _ _ hjkey]
      exact alookup_aerase_ne _ _ _ hj0
    · rw [PulseMetrics.recordBody_access_times, alookup_aupd_ne _ _ _ _ hjkey]
      exact alookup_aerase_ne _ _ _ hj0

/-- Claim C2 witness: a full collector (`max_endpoints = 1`) tracking
`GET /old` receives a request for `GET /new`. -/
theorem claim_C2_lru_eviction_witness :
    ∃ s' k0 t0, (PulseMetrics.recordRequest
        { max_samples := 1000, window_seconds := 300, bucket_seconds := 60
          max_endpoints := 1
          request_counts := [("GET /old", 1)]
          error_counts := []
          status_codes := [("GET /old", [(200, 1)])]
          endpoint_metrics := [("GET /old", defaultEndpointRecord 300)]
          latency_trackers := [("GET /old", RollingWindowDigest.init 300 60)]
          global_latency := RollingWindowDigest.init 300 60
          endpoint_access_times := [("GET /old", 5)] } "/new" "GET" 503 2 none 9)
        = some s' ∧
      alookup ([("GET /old", 5)] : List (String × ℚ)) k0 = some t0 ∧
      (∀ p ∈ ([("GET /old", 5)] : List (String × ℚ)), t0 ≤ p.2) ∧
      k0 ≠ "GET" ++ " " ++ "/new" ∧
      alookup s'.request_counts k0 = none ∧
      alookup s'.error_counts k0 = none ∧
      alookup s'.status_codes k0 = none ∧
      alookup s'.endpoint_metrics k0 = none ∧
      alookup s'.latency_trackers k0 = none ∧
      alookup s'.endpoint_access_times k0 = none ∧
      (∀ j, j ≠ k0 → j ≠ "GET" ++ " " ++ "/new" →
        alookup s'.request_counts j
          = alookup ([("GET /old", 1)] : List (String × ℕ)) j ∧
        alookup s'.error_counts j = alookup ([] : List (String × ℕ)) j ∧
        alookup s'.status_codes j
          = alookup ([("GET /old", [(200, 1)])] : List (String × List (ℤ × ℕ))) j ∧
        alookup s'.endpoint_metrics j
          = alookup [("GET /old", defaultEndpointRecord 300)] j ∧
        alookup s'.latency_trackers j
          = alookup [("GET /old", RollingWindowDigest.init 300 60)] j ∧
        alookup s'.endpoint_access_times j
          = alookup ([("GET /old", 5)] : List (String × ℚ)) j) :=
  claim_C2_lru_eviction
    { max_samples := 1000, window_seconds := 300, bucket_seconds := 60
      max_endpoints := 1
      request_counts := [("GET /old", 1)]
      error_counts := []
      status_codes := [("GET /old", [(200, 1)])]
      endpoint_metrics := [("GET /old", defaultEndpointRecord 300)]
      latency_trackers := [("GET /old", RollingWindowDigest.init 300 60)]
      global_latency := RollingWindowDigest.init 300 60
      endpoint_access_times := [("GET /old", 5)] } "/new" "GET" 503 2 none 9
    (by decide) (by decide) (by decide) (by decide)

/-! ### Claim C5 -/

/-- Claim C5: for every endpoint key and every sequence of N
`record_request` calls resolving to it (during which the key is never
evicted — automatic here, since eviction only ever targets other keys),
starting from a state where the key has no record yet:
`endpoint_metrics[key].total_requests = N`,
`success_count + error_count = N`, and `error_count` equals the number of
those calls with `status_code >= 400` (with no bounds checking on the
code; every call with `status_code < 400` counts as success). -/
theorem claim_C5_per_key_counters (s : PulseMetrics) (endpoint method : String)
    (calls : List (ℤ × ℚ × ℚ))
    (hInv : PulseMetrics.Inv s) (hmax : 1 ≤ s.max_endpoints)
    (hfresh : alookup s.endpoint_metrics (method ++ " " ++ endpoint) = none) :
    ∃ s', PulseMetrics.recordAll s endpoint method calls = some s' ∧
      (alookupD s'.endpoint_metrics (method ++ " " ++ endpoint)
        (defaultEndpointRecord s.window_seconds)).total_requests = calls.length ∧
      (alookupD s'.endpoint_metrics (method ++ " " ++ endpoint)
          (defaultEndpointRecord s.window_seconds)).success_count
        + (alookupD s'.endpoint_metrics (method ++ " " ++ endpoint)
            (defaultEndpointRecord s.window_seconds)).error_count = calls.length ∧
      (alookupD s'.endpoint_metrics (method ++ " " ++ endpoint)
          (defaultEndpointRecord s.window_seconds)).error_count
        = (calls.filter (fun c => 400 ≤ c.1)).length := by
  obtain ⟨s', hrun, _, _, _, htot, hsucc, herr⟩ :=
    PulseMetrics.recordAll_spec endpoint method calls s hInv hmax
  have hold : alookupD s.endpoint_metrics (method ++ " " ++ endpoint)
      (defaultEndpointRecord s.window_seconds) = defaultEndpointRecord s.window_seconds := by
    simp [alookupD, hfresh]
  refine ⟨s', hrun, ?_, ?_, ?_⟩
  · rw [htot, hold]
    simp [defaultEndpointRecord]
  · rw [hsucc, herr, hold]
    simp only [defaultEndpointRecord, Nat.zero_add]
    exact PulseMetrics.filter_length_split calls
  · rw [herr, hold]
    simp [defaultEndpointRecord]

/-- Claim C5 witness: two calls (one success, one error) to `GET /x` on a
fresh collector. -/
theorem claim_C5_per_key_counters_witness :
    ∃ s', PulseMetrics.recordAll (PulseMetrics.init 1000 300 60 5) "/x" "GET"
        [(200, 1, 0), (503, 2, 1)] = some s' ∧
      (alookupD s'.endpoint_metrics ("GET" ++ " " ++ "/x")
        (defaultEndpointRecord
          (PulseMetrics.init 1000 300 60 5).window_seconds)).total_requests = 2 ∧
      (alookupD s'.endpoint_metrics ("GET" ++ " " ++ "/x")
          (defaultEndpointRecord
            (PulseMetrics.init 1000 300 60 5).window_seconds)).success_count
        + (alookupD s'.endpoint_metrics ("GET" ++ " " ++ "/x")
            (defaultEndpointRecord
              (PulseMetrics.init 1000 300 60 5).window_seconds)).error_count = 2 ∧
      (alookupD s'.endpoint_metrics ("GET" ++ " " ++ "/x")
          (defaultEndpointRecord
            (PulseMetrics.init 1000 300 60 5).window_seconds)).error_count
        = (([(200, 1, 0), (503, 2, 1)] : List (ℤ × ℚ × ℚ)).filter
            (fun c => 400 ≤ c.1)).length := by
  have h := claim_C5_per_key_counters (PulseMetrics.init 1000 300 60 5) "/x" "GET"
    [(200, 1, 0), (503, 2, 1)] (by decide) (by decide) (by decide)
  obtain ⟨s', hrun, h1, h2, h3⟩ := h
  exact ⟨s', hrun, by simpa using h1, by simpa using h2, h3⟩

/-! ### Claim C9 -/

/-- Claim C9 counterexample: the claim as stated is false, because LRU
eviction can discard counts. With `max_endpoints = 1`, one caller
records `GET /a` and another `GET /b` (two calls in total, in any
interleaving this is one of them); afterwards the per-endpoint totals sum
to 1, not 2: the second call evicted the first key's count. -/
theorem claim_C9_counterexample :
    (PulseMetrics.runCalls (PulseMetrics.init 1000 300 60 1)
        [("/a", "GET", 200, 1, 0), ("/b", "GET", 200, 1, 1)]).map
      (fun s' => sumVals s'.request_counts) = some 1 ∧
    ([("/a", "GET", 200, 1, 0), ("/b", "GET", 200, 1, 1)] : List
      (String × String × ℤ × ℚ × ℚ)).length = 2 := by
  constructor
  · rfl
  · rfl

/-- Claim C9 (amended): provided the number of distinct endpoint keys
recorded stays within `max_endpoints` (so LRU eviction never fires), no
request is lost or double-counted: for every sequence of calls — and
since each `record_request` runs under the aggregator's single exclusive
lock, an execution by any number of parallel callers is exactly one such
interleaved sequence — the per-endpoint total request counts of the final
state sum to the total number of calls issued. -/
theorem claim_C9_no_lost_updates (maxSamples : ℕ) (w bs : ℤ) (maxE : ℕ)
    (calls : List (String × String × ℤ × ℚ × ℚ))
    (hdist : ((calls.map PulseMetrics.callKey).dedup).length ≤ maxE) :
    ∃ s', PulseMetrics.runCalls (PulseMetrics.init maxSamples w bs maxE) calls
        = some s' ∧
      sumVals s'.request_counts = calls.length := by
  obtain ⟨s', hrun, hsum⟩ := PulseMetrics.runCalls_no_evict calls
    (PulseMetrics.init maxSamples w bs maxE) ((calls.map PulseMetrics.callKey).dedup)
    (by simp [PulseMetrics.init, akeys])
    (by intro k hk; simp [PulseMetrics.init, akeys] at hk)
    (List.nodup_dedup _)
    hdist
    (by
      intro c hc
      exact List.mem_dedup.mpr (List.mem_map_of_mem PulseMetrics.callKey hc))
  refine ⟨s', hrun, ?_⟩
  rw [hsum]
  simp [PulseMetrics.init, sumVals]

/-- Claim C9 witness: three calls to two distinct keys under
`max_endpoints = 5`. -/
theorem claim_C9_no_lost_updates_witness :
    ∃ s', PulseMetrics.runCalls (PulseMetrics.init 1000 300 60 5)
        [("/a", "GET", 200, 1, 0), ("/b", "POST", 503, 2, 1), ("/a", "GET", 404, 3, 2)]
        = some s' ∧
      sumVals s'.request_counts
        = ([("/a", "GET", 200, 1, 0), ("/b", "POST", 503, 2, 1),
            ("/a", "GET", 404, 3, 2)] : List (String × String × ℤ × ℚ × ℚ)).length :=
  claim_C9_no_lost_updates 1000 300 60 5
    [("/a", "GET", 200, 1, 0), ("/b", "POST", 503, 2, 1), ("/a", "GET", 404, 3, 2)]
    (by decide)

/-! ### `PulsePayloadStore` (`payload_store.py`)

JSON values are embedded as an inductive (numbers restricted to integers;
no float payloads appear in the claims). The persisted file is embedded
as the JSON object it holds (`none` = file absent): `_flush` writes
`json.dump(self._payloads, indent=2)` and `_load` parses it back, with
the byte length of both serializations modelled by compositional length
functions mirroring `json.dumps` with default separators and with
`indent=2`. `set` returns the post-call store state (the source raises
before any mutation) paired with the outcome. -/

/-- A JSON value (Python `json` module data, numbers restricted to `ℤ`). -/
inductive JsonVal where
  | null : JsonVal
  | bool (b : Bool) : JsonVal
  | int (n : ℤ) : JsonVal
  | str (s : String) : JsonVal
  | arr (xs : List JsonVal) : JsonVal
  | obj (kvs : List (String × JsonVal)) : JsonVal

/-- Python truthiness of a JSON value (`None`, `False`, `0`, `""`, `[]`,
`{}` are falsy). -/
def isFalsy : JsonVal → Bool
  | .null => true
  | .bool b => !b
  | .int n => n == 0
  | .str s => s.isEmpty
  | .arr xs => xs.isEmpty
  | .obj kvs => kvs.isEmpty

/-- Python `x or {}` applied to an optional value (`payload.get(k) or {}`). -/
def pyOr (v : Option JsonVal) : JsonVal :=
  match v with
  | none => .obj []
  | some x => if isFalsy x then .obj [] else x

/-- The dict returned by `_sanitize_payload` (fixed five keys, in
insertion order). -/
structure SanitizedPayload where
  path_params : JsonVal
  query : JsonVal
  headers : JsonVal
  body : JsonVal
  media_type : JsonVal

/-- `_sanitize_payload(payload)`: `path_params`/`query`/`headers` default
to `{}` when missing or falsy; `body` is `None` when the key is absent;
`media_type` is `payload.get("media_type")`. -/
def sanitizePayload (payload : List (String × JsonVal)) : SanitizedPayload :=
  { path_params := pyOr (alookup payload "path_params")
    query := pyOr (alookup payload "query")
    headers := pyOr (alookup payload "headers")
    body := (alookup payload "body").getD JsonVal.null
    media_type := (alookup payload "media_type").getD JsonVal.null }

/-- The sanitized dict as a JSON object, key order as in the source. -/
def sanitizedToJson (c : SanitizedPayload) : JsonVal :=
  .obj [("path_params", c.path_params), ("query", c.query), ("headers", c.headers),
    ("body", c.body), ("media_type", c.media_type)]

/-- UTF-8 byte length contributed by one character of a JSON string under
`json.dumps(..., ensure_ascii=False)`: `"` and `\` escape to 2 bytes,
control characters below 0x20 to their 2-byte shorthands
(`\n \t \r \b \f`) or 6-byte `\uXXXX` forms, everything else is emitted
raw in UTF-8. -/
def escCharLen (ch : Char) : ℕ :=
  if ch = '"' ∨ ch = '\\' then 2
  else if ch.toNat < 32 then
    (if ch = '\n' ∨ ch = '\t' ∨ ch = '\r' ∨ ch.toNat = 8 ∨ ch.toNat = 12 then 2 else 6)
  else ch.utf8Size

/-- UTF-8 byte length of the characters of a JSON-escaped string (without
the surrounding quotes). -/
def escLen (s : String) : ℕ := (s.data.map escCharLen).sum

mutual

/-- Byte length of `json.dumps(v, ensure_ascii=False)` with the default
separators `(', ', ': ')` — the length used for the per-payload size
check. -/
def dumpsLen : JsonVal → ℕ
  | .null => 4
  | .bool b => if b then 4 else 5
  | .int n => (toString n).length
  | .str s => 2 + escLen s
  | .arr xs => 2 + dumpsLenArr xs
  | .obj kvs => 2 + dumpsLenObj kvs

/-- Byte length of the comma-space-separated array items. -/
def dumpsLenArr : List JsonVal → ℕ
  | [] => 0
  | [x] => dumpsLen x
  | x :: y :: rest => dumpsLen x + 2 + dumpsLenArr (y :: rest)

/-- Byte length of the comma-space-separated `"key": value` members. -/
def dumpsLenObj : List (String × JsonVal) → ℕ
  | [] => 0
  | [(k, v)] => (2 + escLen k) + 2 + dumpsLen v
  | (k, v) :: e :: rest => (2 + escLen k) + 2 + dumpsLen v + 2 + dumpsLenObj (e :: rest)

end

mutual

/-- Byte length of `json.dump(v, indent=2)` at nesting level `lvl` — the
on-disk length produced by `_flush` (empty containers stay `{}`/`[]`;
nonempty ones put each member on its own line indented by
`2 * (lvl + 1)`, with a closing line indented by `2 * lvl`). -/
def dumpILen (lvl : ℕ) : JsonVal → ℕ
  | .null => 4
  | .bool b => if b then 4 else 5
  | .int n => (toString n).length
  | .str s => 2 + escLen s
  | .arr [] => 2
  | .arr (x :: xs) => 1 + dumpILenArr lvl (x :: xs) + 1 + 1 + 2 * lvl + 1
  | .obj [] => 2
  | .obj (e :: es) => 1 + dumpILenObj lvl (e :: es) + 1 + 1 + 2 * lvl + 1

/-- Indented array items: newline + indent + item, comma-separated. -/
def dumpILenArr (lvl : ℕ) : List JsonVal → ℕ
  | [] => 0
  | [x] => 2 * (lvl + 1) + dumpILen (lvl + 1) x
  | x :: y :: rest =>
      2 * (lvl + 1) + dumpILen (lvl + 1) x + 2 + dumpILenArr lvl (y :: rest)

/-- Indented object members: newline + indent + `"key": value`,
comma-separated. -/
def dumpILenObj (lvl : ℕ) : List (String × JsonVal) → ℕ
  | [] => 0
  | [(k, v)] => 2 * (lvl + 1) + (2 + escLen k) + 2 + dumpILen (lvl + 1) v
  | (k, v) :: e :: rest =>
      2 * (lvl + 1) + (2 + escLen k) + 2 + dumpILen (lvl + 1) v + 2
        + dumpILenObj lvl (e :: rest)

end

/-- On-disk byte length of the persisted store file: the flat JSON object
keyed by endpoint key, written with `indent=2`. -/
def storeDumpLen (m : List (String × SanitizedPayload)) : ℕ :=
  dumpILen 0 (.obj (m.map (fun kv => (kv.1, sanitizedToJson kv.2))))

/-- `MAX_PAYLOAD_SIZE_BYTES = 1024 * 1024`. -/
def MAX_PAYLOAD_SIZE_BYTES : ℕ := 1048576

/-- `MAX_TOTAL_STORAGE_BYTES = 10 * 1024 * 1024`. -/
def MAX_TOTAL_STORAGE_BYTES : ℕ := 10485760

/-- One or more of `[A-Z]`. -/
def isUpperChar (ch : Char) : Bool := 'A' ≤ ch && ch ≤ 'Z'

/-- The character class `[a-zA-Z0-9/_\-{}]` of `ENDPOINT_ID_PATTERN`. -/
def isPathChar (ch : Char) : Bool :=
  ('a' ≤ ch && ch ≤ 'z') || ('A' ≤ ch && ch ≤ 'Z') || ('0' ≤ ch && ch ≤ '9') ||
    ch == '/' || ch == '_' || ch == '-' || ch == '{' || ch == '}'

/-- Membership in the language of `[A-Z]+ /[a-zA-Z0-9/_\-{}]+` anchored at
both ends: a maximal nonempty uppercase run, a space, a slash, then at
least one class character. -/
def coreMatch (cs : List Char) : Bool :=
  let ms := cs.takeWhile isUpperChar
  let rest := cs.drop ms.length
  !ms.isEmpty &&
    (match rest with
     | ' ' :: '/' :: t => !t.isEmpty && t.all isPathChar
     | _ => false)

/-- `ENDPOINT_ID_PATTERN.match(endpoint_id)`: Python's `$` also matches
just before one final newline. -/
def matchesEndpointId (s : String) : Bool :=
  coreMatch s.data ||
    (match s.data.getLast? with
     | some c => c == '\n' && coreMatch s.data.dropLast
     | none => false)

/-- Persistent custom payload-override store (`PulsePayloadStore`). The
file is represented by the JSON object it holds (`none` = absent). -/
structure PulsePayloadStore where
  fileContent : Option (List (String × SanitizedPayload))
  payloads : List (String × SanitizedPayload)

namespace PulsePayloadStore

/-- `__init__` + `_load` over an absent or well-formed persisted file (a
corrupted file resets to `{}` in the source and is outside the JSON-value
file model). -/
def load (fc : Option (List (String × SanitizedPayload))) : PulsePayloadStore :=
  { fileContent := fc, payloads := fc.getD [] }

/-- `get(endpoint_id)`. -/
def get (st : PulsePayloadStore) (endpoint_id : String) : Option SanitizedPayload :=
  alookup st.payloads endpoint_id

/-- `set(endpoint_id, payload)`: validates the id against
`ENDPOINT_ID_PATTERN`, sanitizes, enforces the per-payload byte cap on
`json.dumps(cleaned)`, and — when the file exists, the id is new and the
current file is already over the total cap — rejects; otherwise stores
and flushes. Returns the post-call state (unchanged on error: every raise
in the source precedes any mutation) and the outcome. -/
def set (st : PulsePayloadStore) (endpoint_id : String)
    (payload : List (String × JsonVal)) :
    PulsePayloadStore × Except String SanitizedPayload :=
  if !matchesEndpointId endpoint_id then
    (st, .error "Invalid endpoint_id format")
  else
    let cleaned := sanitizePayload payload
    let payload_size := dumpsLen (sanitizedToJson cleaned)
    if MAX_PAYLOAD_SIZE_BYTES < payload_size then
      (st, .error "Payload too large")
    else
      match st.fileContent with
      | some fc =>
        if ¬ endpoint_id ∈ akeys st.payloads ∧ MAX_TOTAL_STORAGE_BYTES < storeDumpLen fc
        then (st, .error "Storage limit exceeded")
        else ({ fileContent := some (aupd st.payloads endpoint_id cleaned)
                payloads := aupd st.payloads endpoint_id cleaned }, .ok cleaned)
      | none => ({ fileContent := some (aupd st.payloads endpoint_id cleaned)
                   payloads := aupd st.payloads endpoint_id cleaned }, .ok cleaned)

end PulsePayloadStore

/-! ### Claim C7 -/

/-- Claim C7: whenever `set(endpoint_id, payload)` succeeds, the persisted
file holds the updated flat JSON object, and a new store constructed over
that same persisted file contains the override, with content identical to
the sanitized payload that `set` returned (the round trip through the
JSON file preserves the value; `json.dump`/`json.load` inversion on
JSON-representable dicts is assumed by representing the file as the JSON
object it holds, written atomically by `_flush`). -/
theorem claim_C7_persist_roundtrip (st : PulsePayloadStore) (endpoint_id : String)
    (payload : List (String × JsonVal)) (c : SanitizedPayload)
    (h : (st.set endpoint_id payload).2 = Except.ok c) :
    c = sanitizePayload payload ∧
    (st.set endpoint_id payload).1.fileContent
      = some (aupd st.payloads endpoint_id c) ∧
    (PulsePayloadStore.load (st.set endpoint_id payload).1.fileContent).get endpoint_id
      = some c := by
  by_cases hm : matchesEndpointId endpoint_id
  · by_cases hs : MAX_PAYLOAD_SIZE_BYTES
        < dumpsLen (sanitizedToJson (sanitizePayload payload))
    · exfalso
      have hset : (st.set endpoint_id payload).2 = Except.error "Payload too large" := by
        simp [PulsePayloadStore.set, hm, hs]
      rw [hset] at h
      exact Except.noConfusion h
    · cases hfc : st.fileContent with
      | some fc =>
        by_cases htot : ¬ endpoint_id ∈ akeys st.payloads ∧
            MAX_TOTAL_STORAGE_BYTES < storeDumpLen fc
        · exfalso
          have hset : (st.set endpoint_id payload).2
              = Except.error "Storage limit exceeded" := by
            simp [PulsePayloadStore.set, hm, hs, hfc, htot]
          rw [hset] at h
          exact Except.noConfusion h
        · have hset : st.set endpoint_id payload
              = ({ fileContent := some (aupd st.payloads endpoint_id
                    (sanitizePayload payload))
                   payloads := aupd st.payloads endpoint_id (sanitizePayload payload) },
                 Except.ok (sanitizePayload payload)) := by
            simp [PulsePayloadStore.set, hm, hs, hfc, htot]
          rw [hset] at h
          have hc : c = sanitizePayload payload := (Except.ok.inj h).symm
          subst hc
          rw [hset]
          exact ⟨rfl, rfl, by
            simp [PulsePayloadStore.load, PulsePayloadStore.get, alookup_aupd_self]⟩
      | none =>
        have hset : st.set endpoint_id payload
            = ({ fileContent := some (aupd st.payloads endpoint_id
                  (sanitizePayload payload))
                 payloads := aupd st.payloads endpoint_id (sanitizePayload payload) },
               Except.ok (sanitizePayload payload)) := by
          simp [PulsePayloadStore.set, hm, hs, hfc]
        rw [hset] at h
        have hc : c = sanitizePayload payload := (Except.ok.inj h).symm
        subst hc
        rw [hset]
        exact ⟨rfl, rfl, by
          simp [PulsePayloadStore.load, PulsePayloadStore.get, alookup_aupd_self]⟩
  · exfalso
    have hset : (st.set endpoint_id payload).2
        = Except.error "Invalid endpoint_id format" := by
      simp [PulsePayloadStore.set, hm]
    rw [hset] at h
    exact Except.noConfusion h

/-- Claim C7 witness: set an empty payload on `A /b` over an absent file,
reload the persisted file, and find the sanitized payload. -/
theorem claim_C7_persist_roundtrip_witness :
    sanitizePayload [] = sanitizePayload ([] : List (String × JsonVal)) ∧
    (((PulsePayloadStore.load none).set "A /b" []).1).fileContent
      = some (aupd (PulsePayloadStore.load none).payloads "A /b" (sanitizePayload [])) ∧
    (PulsePayloadStore.load
        (((PulsePayloadStore.load none).set "A /b" []).1).fileContent).get "A /b"
      = some (sanitizePayload []) :=
  claim_C7_persist_roundtrip (PulsePayloadStore.load none) "A /b" [] (sanitizePayload [])
    (by rfl)

/-! ### Claim C8 -/

/-- Claim C8 (amended): `set` raises — leaving the stored payload map and
the persisted file unchanged — exactly when the endpoint id fails the
`METHOD /path...` pattern, or the sanitized payload's serialized size
exceeds the per-payload maximum, or the id is not yet stored and the
persisted file's current size already exceeds the maximum cumulative
storage size; in every other case it stores the sanitized payload, flushes
it, and returns it. (The source checks the pre-existing file's size, and
only for new ids: it does not prevent a store from growing past the
cumulative cap.) -/
theorem claim_C8_set_validation (st : PulsePayloadStore) (endpoint_id : String)
    (payload : List (String × JsonVal)) :
    ((∃ e, (st.set endpoint_id payload).2 = Except.error e) ↔
      (matchesEndpointId endpoint_id = false ∨
        MAX_PAYLOAD_SIZE_BYTES < dumpsLen (sanitizedToJson (sanitizePayload payload)) ∨
        (∃ fc, st.fileContent = some fc ∧ ¬ endpoint_id ∈ akeys st.payloads ∧
          MAX_TOTAL_STORAGE_BYTES < storeDumpLen fc))) ∧
    ((∃ e, (st.set endpoint_id payload).2 = Except.error e) →
      (st.set endpoint_id payload).1 = st) ∧
    (∀ c, (st.set endpoint_id payload).2 = Except.ok c →
      c = sanitizePayload payload ∧
      (st.set endpoint_id payload).1.payloads
        = aupd st.payloads endpoint_id (sanitizePayload payload) ∧
      (st.set endpoint_id payload).1.fileContent
        = some (aupd st.payloads endpoint_id (sanitizePayload payload))) := by
  by_cases hm : matchesEndpointId endpoint_id
  · by_cases hs : MAX_PAYLOAD_SIZE_BYTES
        < dumpsLen (sanitizedToJson (sanitizePayload payload))
    · have hset : st.set endpoint_id payload = (st, Except.error "Payload too large") := by
        simp [PulsePayloadStore.set, hm, hs]
      rw [hset]
      refine ⟨iff_of_true ⟨_, rfl⟩ (Or.inr (Or.inl hs)), fun _ => rfl, ?_⟩
      intro c hc
      exact absurd hc (by simp)
    · cases hfc : st.fileContent with
      | some fc =>
        by_cases htot : ¬ endpoint_id ∈ akeys st.payloads ∧
            MAX_TOTAL_STORAGE_BYTES < storeDumpLen fc
        · have hset : st.set endpoint_id payload
              = (st, Except.error "Storage limit exceeded") := by
            simp [PulsePayloadStore.set, hm, hs, hfc, htot]
          rw [hset]
          refine ⟨iff_of_true ⟨_, rfl⟩
            (Or.inr (Or.inr ⟨fc, rfl, htot.1, htot.2⟩)), fun _ => rfl, ?_⟩
          intro c hc
          exact absurd hc (by simp)
        · have hset : st.set endpoint_id payload
              = ({ fileContent := some (aupd st.payloads endpoint_id
                    (sanitizePayload payload))
                   payloads := aupd st.payloads endpoint_id (sanitizePayload payload) },
                 Except.ok (sanitizePayload payload)) := by
            simp [PulsePayloadStore.set, hm, hs, hfc, htot]
          rw [hset]
          refine ⟨iff_of_false (by simp) ?_, by intro h; simp at h, ?_⟩
          · intro hcond
            rcases hcond with h1 | h2 | ⟨fc', hfc', hmem, hsz⟩
            · rw [hm] at h1
              exact Bool.noConfusion h1
            · exact hs h2
            · injection hfc' with hfc'
              subst hfc'
              exact htot ⟨hmem, hsz⟩
          · intro c hc
            have hc' : c = sanitizePayload payload := (Except.ok.inj hc).symm
            subst hc'
            exact ⟨rfl, rfl, rfl⟩
      | none =>
        have hset : st.set endpoint_id payload
            = ({ fileContent := some (aupd st.payloads endpoint_id
                  (sanitizePayload payload))
                 payloads := aupd st.payloads endpoint_id (sanitizePayload payload) },
               Except.ok (sanitizePayload payload)) := by
          simp [PulsePayloadStore.set, hm, hs, hfc]
        rw [hset]
        refine ⟨iff_of_false (by simp) ?_, by intro h; simp at h, ?_⟩
        · intro hcond
          rcases hcond with h1 | h2 | ⟨fc', hfc', _, _⟩
          · rw [hm] at h1
            exact Bool.noConfusion h1
          · exact hs h2
          · exact Option.noConfusion hfc'
        · intro c hc
          have hc' : c = sanitizePayload payload := (Except.ok.inj hc).symm
          subst hc'
          exact ⟨rfl, rfl, rfl⟩
  · have hm' : matchesEndpointId endpoint_id = false := by
      revert hm
      cases matchesEndpointId endpoint_id <;> simp
    have hset : st.set endpoint_id payload
        = (st, Except.error "Invalid endpoint_id format") := by
      simp [PulsePayloadStore.set, hm']
    rw [hset]
    refine ⟨iff_of_true ⟨_, rfl⟩ (Or.inl hm'), fun _ => rfl, ?_⟩
    intro c hc
    exact absurd hc (by simp)

/-- Claim C8 witness: the amended characterization applied to a concrete
store and call (a fresh store over an absent file, a valid id, an empty
payload). -/
theorem claim_C8_set_validation_witness :
    ((∃ e, ((PulsePayloadStore.load none).set "A /b"
        ([] : List (String × JsonVal))).2 = Except.error e) ↔
      (matchesEndpointId "A /b" = false ∨
        MAX_PAYLOAD_SIZE_BYTES < dumpsLen (sanitizedToJson (sanitizePayload [])) ∨
        (∃ fc, (PulsePayloadStore.load none).fileContent = some fc ∧
          ¬ "A /b" ∈ akeys (PulsePayloadStore.load none).payloads ∧
          MAX_TOTAL_STORAGE_BYTES < storeDumpLen fc))) ∧
    ((∃ e, ((PulsePayloadStore.load none).set "A /b"
        ([] : List (String × JsonVal))).2 = Except.error e) →
      ((PulsePayloadStore.load none).set "A /b" ([] : List (String × JsonVal))).1
        = PulsePayloadStore.load none) ∧
    (∀ c, ((PulsePayloadStore.load none).set "A /b"
        ([] : List (String × JsonVal))).2 = Except.ok c →
      c = sanitizePayload [] ∧
      ((PulsePayloadStore.load none).set "A /b" ([] : List (String × JsonVal))).1.payloads
        = aupd (PulsePayloadStore.load none).payloads "A /b" (sanitizePayload []) ∧
      ((PulsePayloadStore.load none).set "A /b"
          ([] : List (String × JsonVal))).1.fileContent
        = some (aupd (PulsePayloadStore.load none).payloads "A /b"
            (sanitizePayload []))) :=
  claim_C8_set_validation (PulsePayloadStore.load none) "A /b" []

/-- A 1,040,000-byte string payload body (comfortably under the 1 MiB
per-payload cap once serialized). -/
def bigStr : String := String.mk (List.replicate 1040000 'a')

/-- The payload carrying the big body. -/
def bigPayloadIn : List (String × JsonVal) := [("body", JsonVal.str bigStr)]

/-- Its sanitized form. -/
def bigClean : SanitizedPayload := sanitizePayload bigPayloadIn

/-- A persisted store file with ten big payload overrides: each passed
the per-payload cap and the cumulative check when written one at a time,
and the file totals about 10.4 MB — still under the 10 MiB + slack cap
check applied to the pre-existing file. -/
def storeTenBig : List (String × SanitizedPayload) :=
  [("A /p0", bigClean), ("A /p1", bigClean), ("A /p2", bigClean), ("A /p3", bigClean),
    ("A /p4", bigClean), ("A /p5", bigClean), ("A /p6", bigClean), ("A /p7", bigClean),
    ("A /p8", bigClean), ("A /p9", bigClean)]

/-- The store loaded over that file. -/
def stTenBig : PulsePayloadStore := PulsePayloadStore.load (some storeTenBig)

/-- The persisted file after accepting an eleventh big payload. -/
def storeElevenBig : List (String × SanitizedPayload) := aupd storeTenBig "A /pA" bigClean

theorem escLen_replicate_a (n : ℕ) : escLen (String.mk (List.replicate n 'a')) = n := by
  induction n with
  | zero => rfl
  | succ k ih =>
    show ((List.replicate (k + 1) 'a').map escCharLen).sum = k + 1
    rw [List.replicate_succ, List.map_cons, List.sum_cons]
    have h1 : escCharLen 'a' = 1 := rfl
    have ih' : ((List.replicate k 'a').map escCharLen).sum = k := ih
    rw [h1, ih']
    omega

theorem escLen_bigStr : escLen bigStr = 1040000 := escLen_replicate_a 1040000

/-- The sanitized single-body payload as a JSON object, for any body
string. -/
theorem sanitizedToJson_clean_str (s : String) :
    sanitizedToJson (sanitizePayload [("body", JsonVal.str s)])
    = JsonVal.obj [("path_params", .obj []), ("query", .obj []), ("headers", .obj []),
        ("body", .str s), ("media_type", .null)] := rfl

/-- Compact serialized size of the sanitized single-body payload, for any
body string. -/
theorem dumpsLen_clean_str (s : String) :
    dumpsLen (sanitizedToJson (sanitizePayload [("body", JsonVal.str s)]))
      = escLen s + 79 := by
  rw [sanitizedToJson_clean_str]
  simp only [dumpsLen, dumpsLenObj]
  have h1 : escLen "path_params" = 11 := by decide
  have h2 : escLen "query" = 5 := by decide
  have h3 : escLen "headers" = 7 := by decide
  have h4 : escLen "body" = 4 := by decide
  have h5 : escLen "media_type" = 10 := by decide
  rw [h1, h2, h3, h4, h5]
  omega

theorem dumpsLen_bigClean : dumpsLen (sanitizedToJson bigClean) = 1040079 :=
  Eq.trans (dumpsLen_clean_str bigStr) (by
    have h := escLen_bigStr
    omega)

/-- Indented (level-1) serialized size of the sanitized single-body
payload, for any body string. -/
theorem dumpILen1_clean_str (s : String) :
    dumpILen 1 (sanitizedToJson (sanitizePayload [("body", JsonVal.str s)]))
      = escLen s + 103 := by
  rw [sanitizedToJson_clean_str]
  simp only [dumpILen, dumpILenObj]
  have h1 : escLen "path_params" = 11 := by decide
  have h2 : escLen "query" = 5 := by decide
  have h3 : escLen "headers" = 7 := by decide
  have h4 : escLen "body" = 4 := by decide
  have h5 : escLen "media_type" = 10 := by decide
  rw [h1, h2, h3, h4, h5]
  omega

theorem dumpILen1_bigClean : dumpILen 1 (sanitizedToJson bigClean) = 1040103 :=
  Eq.trans (dumpILen1_clean_str bigStr) (by
    have h := escLen_bigStr
    omega)

/-- On-disk size of a ten-entry store holding one payload `c` under the
ten five-byte keys, for any payload. -/
theorem storeDumpLen_tenConst (c : SanitizedPayload) :
    storeDumpLen [("A /p0", c), ("A /p1", c), ("A /p2", c), ("A /p3", c),
        ("A /p4", c), ("A /p5", c), ("A /p6", c), ("A /p7", c),
        ("A /p8", c), ("A /p9", c)]
      = 10 * dumpILen 1 (sanitizedToJson c) + 132 := by
  simp only [storeDumpLen, List.map_cons, List.map_nil, dumpILen, dumpILenObj,
    Nat.zero_add]
  have hk0 : escLen "A /p0" = 5 := by decide
  have hk1 : escLen "A /p1" = 5 := by decide
  have hk2 : escLen "A /p2" = 5 := by decide
  have hk3 : escLen "A /p3" = 5 := by decide
  have hk4 : escLen "A /p4" = 5 := by decide
  have hk5 : escLen "A /p5" = 5 := by decide
  have hk6 : escLen "A /p6" = 5 := by decide
  have hk7 : escLen "A /p7" = 5 := by decide
  have hk8 : escLen "A /p8" = 5 := by decide
  have hk9 : escLen "A /p9" = 5 := by decide
  rw [hk0, hk1, hk2, hk3, hk4, hk5, hk6, hk7, hk8, hk9]
  omega

theorem storeDumpLen_ten : storeDumpLen storeTenBig = 10401162 :=
  Eq.trans (storeDumpLen_tenConst bigClean) (by
    have h := dumpILen1_bigClean
    omega)

/-- On-disk size of the eleven-entry store holding one payload `c` under
eleven five-byte keys, for any payload. -/
theorem storeDumpLen_elevenConst (c : SanitizedPayload) :
    storeDumpLen [("A /p0", c), ("A /p1", c), ("A /p2", c), ("A /p3", c),
        ("A /p4", c), ("A /p5", c), ("A /p6", c), ("A /p7", c),
        ("A /p8", c), ("A /p9", c), ("A /pA", c)]
      = 11 * dumpILen 1 (sanitizedToJson c) + 145 := by
  simp only [storeDumpLen, List.map_cons, List.map_nil, dumpILen, dumpILenObj,
    Nat.zero_add]
  have hk0 : escLen "A /p0" = 5 := by decide
  have hk1 : escLen "A /p1" = 5 := by decide
  have hk2 : escLen "A /p2" = 5 := by decide
  have hk3 : escLen "A /p3" = 5 := by decide
  have hk4 : escLen "A /p4" = 5 := by decide
  have hk5 : escLen "A /p5" = 5 := by decide
  have hk6 : escLen "A /p6" = 5 := by decide
  have hk7 : escLen "A /p7" = 5 := by decide
  have hk8 : escLen "A /p8" = 5 := by decide
  have hk9 : escLen "A /p9" = 5 := by decide
  have hkA : escLen "A /pA" = 5 := by decide
  rw [hk0, hk1, hk2, hk3, hk4, hk5, hk6, hk7, hk8, hk9, hkA]
  omega

theorem storeDumpLen_eleven : storeDumpLen storeElevenBig = 11441278 :=
  Eq.trans (storeDumpLen_elevenConst bigClean) (by
    have h := dumpILen1_bigClean
    omega)

/-- When the id is valid, the payload fits the per-payload cap, and the
pre-existing file is within the cumulative cap, `set` stores and flushes. -/
theorem set_ok_of_fits (st : PulsePayloadStore) (eid : String)
    (payload : List (String × JsonVal)) (fc : List (String × SanitizedPayload))
    (hm : matchesEndpointId eid = true)
    (hs : dumpsLen (sanitizedToJson (sanitizePayload payload)) ≤ MAX_PAYLOAD_SIZE_BYTES)
    (hfc : st.fileContent = some fc)
    (hsz : storeDumpLen fc ≤ MAX_TOTAL_STORAGE_BYTES) :
    st.set eid payload
      = ({ fileContent := some (aupd st.payloads eid (sanitizePayload payload))
           payloads := aupd st.payloads eid (sanitizePayload payload) },
         Except.ok (sanitizePayload payload)) := by
  have hs' : ¬ MAX_PAYLOAD_SIZE_BYTES
      < dumpsLen (sanitizedToJson (sanitizePayload payload)) := not_lt.mpr hs
  have htot : ¬ (¬ eid ∈ akeys st.payloads ∧ MAX_TOTAL_STORAGE_BYTES < storeDumpLen fc) :=
    fun h => absurd h.2 (not_lt.mpr hsz)
  simp [PulsePayloadStore.set, hm, hs', hfc, htot]

/-- Accepting the eleventh big payload: the concrete `set` call stores and
persists it. -/
theorem setTenBig_eq : stTenBig.set "A /pA" bigPayloadIn
    = ({ fileContent := some storeElevenBig, payloads := storeElevenBig },
       Except.ok bigClean) :=
  set_ok_of_fits stTenBig "A /pA" bigPayloadIn storeTenBig
    (by decide)
    (le_of_eq_of_le dumpsLen_bigClean (by decide))
    rfl
    (le_of_eq_of_le storeDumpLen_ten (by decide))

/-- Claim C8 counterexample: a persisted file holding ten large overrides
(10,401,162 bytes, within the 10,485,760-byte cumulative cap) accepts an
eleventh large payload under a new endpoint id without raising, and the
flushed file then weighs 11,441,278 bytes — past the cumulative cap. The
source only rejects when the pre-existing file already exceeds the cap, so
`set` does not raise whenever accepting a payload would violate the
maximum cumulative storage size. -/
theorem claim_C8_counterexample :
    storeDumpLen storeTenBig ≤ MAX_TOTAL_STORAGE_BYTES ∧
    (stTenBig.set "A /pA" bigPayloadIn).2 = Except.ok bigClean ∧
    (stTenBig.set "A /pA" bigPayloadIn).1.fileContent = some storeElevenBig ∧
    MAX_TOTAL_STORAGE_BYTES < storeDumpLen storeElevenBig :=
  ⟨le_of_eq_of_le storeDumpLen_ten (by decide),
   Eq.trans (congrArg Prod.snd setTenBig_eq) rfl,
   Eq.trans (congrArg (fun p => p.1.fileContent) setTenBig_eq) rfl,
   lt_of_lt_of_eq (by decide) storeDumpLen_eleven.symm⟩

end FastapiPulse
